import Mathlib

/-!
Verification development for the `rssel` feed reader (`src/rssel.py`).

The Python code is shallowly embedded: strings are Lean `String`s manipulated
through their character lists, SQLite tables are Lean lists of records,
`INSERT OR IGNORE` is modelled by an explicit conflict check that mirrors
SQLite's UNIQUE semantics (NULLs never conflict), and library calls whose
behaviour the program does not depend on (`hashlib.sha1`, `datetime.strptime`,
`html_to_text`, `urlparse`) are abstracted as function parameters.
-/

namespace Rssel

/-! ### Python string semantics helpers

Python truthiness of an optional string: `None` and `""` are falsy.
`pyOr` is Python's `a or b` on optional strings; `pyStrip` is `str.strip()`,
`pyLower` is `str.lower()` (ASCII model). -/

def strTruthy : Option String → Bool
  | none => false
  | some s => !s.data.isEmpty

def pyOr (a b : Option String) : Option String :=
  if strTruthy a then a else b

def pyStrip (s : String) : String :=
  ⟨((s.data.dropWhile Char.isWhitespace).reverse.dropWhile Char.isWhitespace).reverse⟩

def pyLower (s : String) : String :=
  ⟨s.data.map Char.toLower⟩

/-- Python `s.isdigit()` (ASCII model): nonempty and all characters are digits. -/
def pyIsDigit (s : String) : Bool :=
  !s.data.isEmpty && s.data.all Char.isDigit

/-! ### ID short-code helpers (`_id_to_code`, `_parse_item_id_token`) -/

/-- The digit alphabet `"0123456789abcdefghijklmnopqrstuvwxyz"` of `_id_to_code`. -/
def b36Alphabet : List Char := "0123456789abcdefghijklmnopqrstuvwxyz".data

def b36digitChar (n : Nat) : Char := b36Alphabet.getD n '0'

/-- The `while n: n, r = divmod(n, 36); out.append(digits[r])` loop of
`_id_to_code`: base-36 digits, least significant first. -/
def b36rev (n : Nat) : List Char :=
  if h : n = 0 then [] else b36digitChar (n % 36) :: b36rev (n / 36)
decreasing_by exact Nat.div_lt_self (Nat.pos_of_ne_zero h) (by norm_num)

/-- `_id_to_code` for non-negative ids (the `n < 0` branch is unreachable for
item ids, which are positive). -/
def _id_to_code (n : Nat) : String :=
  if n < 36 then ⟨[b36digitChar n]⟩ else ⟨(b36rev n).reverse⟩

/-- Value of a character as a base-36 digit, Python `int(_, 36)` style
(digits, lower/upper case letters; anything else is a parse failure). -/
def b36CharVal (c : Char) : Option Nat :=
  if c.isDigit then some (c.toNat - '0'.toNat)
  else if 'a' ≤ c ∧ c ≤ 'z' then some (c.toNat - 'a'.toNat + 10)
  else if 'A' ≤ c ∧ c ≤ 'Z' then some (c.toNat - 'A'.toNat + 10)
  else none

/-- Fold a most-significant-first digit list into a value in base `b`,
failing on an invalid character. -/
def radixVal (b : Nat) (val : Char → Option Nat) : List Char → Nat → Option Nat
  | [], acc => some acc
  | c :: cs, acc =>
    match val c with
    | none => none
    | some d => radixVal b val cs (acc * b + d)

/-- Python `int(s)` on an all-digit string. -/
def decimalVal (cs : List Char) : Nat :=
  cs.foldl (fun acc c => acc * 10 + (c.toNat - '0'.toNat)) 0

/-- `_parse_item_id_token`: strip, empty → `None`; all-digit → decimal;
otherwise base 36 (`int(s, 36)`), invalid → `None`. -/
def _parse_item_id_token (tok : Option String) : Option Nat :=
  match tok with
  | none => none
  | some t =>
    let s := pyStrip t
    if s.data.isEmpty then none
    else if pyIsDigit s then some (decimalVal s.data)
    else radixVal 36 b36CharVal s.data 0

/-! ### Auto-tagger (`_tokenize`, `extract_auto_tags`) -/

/-- Python regex `\w` word character (ASCII model of the Unicode class):
letters, digits, underscore. -/
def isWordChar (c : Char) : Bool := c.isAlphanum || c = '_'

/-- `re.split(r"[^\w\-]+", text)`: split on runs of non-word, non-hyphen
characters. `List.splitOnP` splits at every separator, so runs produce extra
empty pieces; the caller drops empty strings either way (`if w`). -/
def splitNonWord (s : String) : List String :=
  (s.data.splitOnP (fun c => !(isWordChar c || c = '-'))).map (fun l => ⟨l⟩)

/-- Python `w.strip("-_")`: remove leading and trailing hyphens/underscores. -/
def pyStripHU (s : String) : String :=
  ⟨((s.data.dropWhile fun c => c = '-' || c = '_').reverse.dropWhile
      fun c => c = '-' || c = '_').reverse⟩

/-- `_tokenize`: lower-case, split, drop empty and pure-digit raw tokens,
then strip surrounding hyphens/underscores from the survivors. -/
def _tokenize (text : String) : List String :=
  let words := splitNonWord (pyLower text)
  (words.filter (fun w => !w.data.isEmpty && !pyIsDigit w)).map pyStripHU

/-- One `weights[w] = weights.get(w, 0) + k` dict update, as an association
list keyed by first insertion (Python dict semantics). -/
def bump : List (String × Nat) → String → Nat → List (String × Nat)
  | [], w, k => [(w, k)]
  | (a, v) :: rest, w, k =>
    if a = w then (a, v + k) :: rest else (a, v) :: bump rest w k

/-- One accumulation loop of `extract_auto_tags`: walk the token list, skip
tokens shorter than `min_len` or in the stopword set, add `k` to the weight
of each surviving token. -/
def accumTokens (min_len : Nat) (stop : List String) (k : Nat)
    (ws : List String) (init : List (String × Nat)) : List (String × Nat) :=
  ws.foldl (fun acc w => if w.length < min_len || decide (w ∈ stop) then acc else bump acc w k) init

/-- The ranking order of `sorted(weights.items(), key=lambda kv: (-kv[1], kv[0]))`:
weight descending, then token ascending. -/
def rankLE (a b : String × Nat) : Prop :=
  b.2 < a.2 ∨ (a.2 = b.2 ∧ a.1 ≤ b.1)

instance : DecidableRel rankLE := fun a b => by
  unfold rankLE
  infer_instance

instance : IsTrans (String × Nat) rankLE where
  trans a b c hab hbc := by
    rcases hab with h | ⟨h1, h2⟩ <;> rcases hbc with h' | ⟨h1', h2'⟩
    · exact Or.inl (lt_trans h' h)
    · exact Or.inl (by omega)
    · exact Or.inl (by omega)
    · exact Or.inr ⟨by omega, le_trans h2 h2'⟩

instance : IsTotal (String × Nat) rankLE where
  total a b := by
    rcases Nat.lt_trichotomy a.2 b.2 with h | h | h
    · exact Or.inr (Or.inl h)
    · rcases le_total a.1 b.1 with h' | h'
      · exact Or.inl (Or.inr ⟨h, h'⟩)
      · exact Or.inr (Or.inr ⟨h.symm, h'⟩)
    · exact Or.inl (Or.inl h)

instance : IsAntisymm (String × Nat) rankLE where
  antisymm a b hab hba := by
    rcases hab with h | ⟨h1, h2⟩ <;> rcases hba with h' | ⟨h1', h2'⟩
    · omega
    · omega
    · omega
    · exact Prod.ext (le_antisymm h2 h2') h1

/-- `extract_auto_tags`: accumulate weights (body occurrences weight 1, then
title occurrences weight 2), sort by (weight desc, token asc), take the top
`max_tags` tokens. The stopword set is passed explicitly (the source defaults
it to `load_stopwords()`). -/
def extract_auto_tags (title body_text : Option String) (max_tags : Nat)
    (min_len : Nat) (stopwords : List String) : List String :=
  let t := title.getD ""
  let body := body_text.getD ""
  let w1 := accumTokens min_len stopwords 1 (_tokenize body) []
  let w2 := accumTokens min_len stopwords 2 (_tokenize t) w1
  ((List.insertionSort rankLE w2).take max_tags).map Prod.fst

/-- Tokens of one text that survive the length and stopword checks of
`extract_auto_tags` (spec wording: "discard tokens shorter than 3 characters,
discard stopword matches"). -/
def survivingTokens (min_len : Nat) (stop : List String) (s : Option String) : List String :=
  (_tokenize (s.getD "")).filter (fun w => min_len ≤ w.length && !(decide (w ∈ stop)))

/-- Specification-side auto-tag extraction, following the spec's words: each
surviving token is weighted by (body occurrences) * 1 + (title occurrences) * 2,
tokens are ranked by (weight descending, token ascending), and the top `N`
are returned. -/
def auto_tags_spec (title body_text : Option String) (N min_len : Nat)
    (stop : List String) : List String :=
  let tb := survivingTokens min_len stop body_text
  let tt := survivingTokens min_len stop title
  let toks := (tb ++ tt).dedup
  let pairs := toks.map (fun t => (t, tb.count t * 1 + tt.count t * 2))
  ((List.insertionSort rankLE pairs).take N).map Prod.fst

/-! ### Weight-accumulation lemmas for the auto-tagger -/

def lookup0 : List (String × Nat) → String → Nat
  | [], _ => 0
  | (a, v) :: rest, x => if a = x then v else lookup0 rest x

def keys (l : List (String × Nat)) : List String := l.map Prod.fst

def bumpFold (k : Nat) (ws : List String) (init : List (String × Nat)) :
    List (String × Nat) :=
  ws.foldl (fun acc w => bump acc w k) init

/-! ### Item store (the SQLite schema of `init_db` as lists of records)

`feeds(url PK, grp, title, archived, tier, last_fetch_ts)`,
`feed_groups(url, grp)`, `items(...)` with `UNIQUE(feed_url, guid) ON CONFLICT
IGNORE` plus the unique index `idx_items_feed_uid (feed_url, uid)`,
`tags(id, name UNIQUE)`, `item_tags(item_id, tag_id)` composite PK. -/

structure FeedRow where
  url : String
  grp : String
  title : Option String
  tier : Option String
  archived : Bool
  last_fetch_ts : Nat
deriving Repr, DecidableEq

structure ItemRow where
  id : Nat
  feed_url : String
  guid : Option String
  uid : Option String
  title : Option String
  link : Option String
  summary : Option String
  content : Option String
  published_ts : Nat
  created_ts : Nat
  read : Bool
  starred : Bool
  deleted : Bool
  auto_tagged_ts : Nat
  fs_exported_ts : Nat
deriving Repr, DecidableEq

structure TagRow where
  id : Nat
  name : String
deriving Repr, DecidableEq

structure DB where
  feeds : List FeedRow
  feedGroups : List (String × String)
  items : List ItemRow
  tags : List TagRow
  itemTags : List (Nat × Nat)
  nextItemId : Nat
  nextTagId : Nat
deriving Repr, DecidableEq

/-- A fresh database (`AUTOINCREMENT` ids start at 1). -/
def emptyDB : DB := ⟨[], [], [], [], [], 1, 1⟩

/-- One parsed feed entry, as produced by `parse_feed` (its `feed_url` field
always equals the feed being fetched and is supplied at insert time). -/
structure Entry where
  guid : Option String
  title : Option String
  link : Option String
  summary : Option String
  content : Option String
  published_ts : Nat
deriving Repr, DecidableEq

/-- Dedup key as computed in `cmd_fetch`:
`base = (guid or link or title or "").strip(); uid = sha1(base).hexdigest() if base else None`.
The SHA-1 hex digest is abstracted as the function parameter `hash`. -/
def uid_fetch (hash : String → String) (e : Entry) : Option String :=
  let base := pyStrip ((pyOr e.guid (pyOr e.link e.title)).getD "")
  if base.data.isEmpty then none else some (hash base)

/-- Dedup key as computed in `cmd_sync`: the truthiness guard is applied to
the raw `guid or link or title` value, before stripping. -/
def uid_sync (hash : String → String) (e : Entry) : Option String :=
  if strTruthy (pyOr e.guid (pyOr e.link e.title)) then
    some (hash (pyStrip ((pyOr e.guid (pyOr e.link e.title)).getD "")))
  else none

/-- SQLite uniqueness-conflict test for inserting into `items`:
`UNIQUE(feed_url, guid)` (conflict-ignored) plus the unique index on
`(feed_url, uid)`. A NULL never conflicts in SQLite. -/
def itemInsertConflict (db : DB) (feed_url : String) (guid uid : Option String) : Prop :=
  ∃ r ∈ db.items, r.feed_url = feed_url ∧
    ((guid ≠ none ∧ r.guid = guid) ∨ (uid ≠ none ∧ r.uid = uid))

instance (db : DB) (feed_url : String) (guid uid : Option String) :
    Decidable (itemInsertConflict db feed_url guid uid) := by
  unfold itemInsertConflict
  infer_instance

/-- `INSERT OR IGNORE INTO items(...)`: the row is dropped on any uniqueness
conflict; otherwise it is appended with the next id and the schema defaults
(`read/starred/deleted = 0`, watermarks `= 0`). -/
def insert_item (db : DB) (feed_url : String) (guid uid title link summary content :
    Option String) (published created : Nat) : DB :=
  if itemInsertConflict db feed_url guid uid then db
  else
    { db with
      items := db.items ++
        [⟨db.nextItemId, feed_url, guid, uid, title, link, summary, content,
          published, created, false, false, false, 0, 0⟩],
      nextItemId := db.nextItemId + 1 }

/-- One iteration of the per-item insert loop (`published_ts or now_ts` falls
back to the ingestion time); the dedup-key computation is a parameter because
`cmd_fetch` and `cmd_sync` differ in it. -/
def insert_entry (uidf : Entry → Option String) (url : String) (now : Nat)
    (db : DB) (e : Entry) : DB :=
  insert_item db url e.guid (uidf e) e.title e.link e.summary e.content
    (if e.published_ts = 0 then now else e.published_ts) now

/-- One iteration of the per-item insert loop of `cmd_fetch`. -/
def fetch_insert_entry (hash : String → String) (url : String) (now : Nat)
    (db : DB) (e : Entry) : DB :=
  insert_entry (uid_fetch hash) url now db e

/-- `SELECT COUNT(*) FROM items WHERE feed_url = ?`. -/
def countFeedItems (db : DB) (url : String) : Nat :=
  (db.items.filter (fun r => decide (r.feed_url = url))).length

/-- The per-feed insert batch of `cmd_fetch`, reporting
`delta_new = max(0, after_count - before_count)` (Nat subtraction). -/
def fetch_batch (hash : String → String) (url : String) (entries : List Entry)
    (now : Nat) (db : DB) : DB × Nat :=
  let before := countFeedItems db url
  let db' := entries.foldl (fetch_insert_entry hash url now) db
  (db', countFeedItems db' url - before)

/-- One iteration of the per-item insert loop of `cmd_sync` (identical to the
fetch loop except for the dedup-key truthiness guard). -/
def sync_insert_entry (hash : String → String) (url : String) (now : Nat)
    (db : DB) (e : Entry) : DB :=
  insert_entry (uid_sync hash) url now db e

/-- The per-feed insert batch of the sync fetch stage. -/
def sync_batch (hash : String → String) (url : String) (entries : List Entry)
    (now : Nat) (db : DB) : DB × Nat :=
  let before := countFeedItems db url
  let db' := entries.foldl (sync_insert_entry hash url now) db
  (db', countFeedItems db' url - before)

/-- The (feed_url, uid) dedup invariant: no two stored rows share an identical
pair with a non-NULL uid. -/
def uidUnique (db : DB) : Prop :=
  db.items.Pairwise (fun a b => ¬(a.feed_url = b.feed_url ∧ a.uid ≠ none ∧ a.uid = b.uid))

/-! ### Feed parser (`parse_feed`)

`ET.fromstring` either yields an element tree or raises `ET.ParseError`, which
`parse_feed` catches and turns into `[]`; the already-parsed tree is therefore
modelled as `Option XElem` (`none` = malformed input). `datetime.strptime`
against the known format list is abstracted as `strp : String → Option Nat`.
Python element truthiness (an element is falsy when it has no children) is
modelled by `elemTruthy`. -/

inductive XElem where
  | mk (tag : String) (attrs : List (String × String)) (text : Option String)
      (children : List XElem)

def XElem.tag : XElem → String
  | ⟨t, _, _, _⟩ => t

def XElem.attrs : XElem → List (String × String)
  | ⟨_, a, _, _⟩ => a

def XElem.text : XElem → Option String
  | ⟨_, _, t, _⟩ => t

def XElem.children : XElem → List XElem
  | ⟨_, _, _, c⟩ => c

/-- `el.find(tag)`: first direct child with the given (namespace-resolved) tag. -/
def XElem.findTag (e : XElem) (t : String) : Option XElem :=
  e.children.find? (fun c => c.tag == t)

/-- `el.findall(tag)`: all direct children with the given tag. -/
def XElem.findAllTag (e : XElem) (t : String) : List XElem :=
  e.children.filter (fun c => c.tag == t)

/-- `el.find("tag[@attr='val']")`: first direct child with the tag whose
attribute `a` equals `v`. -/
def XElem.findTagAttr (e : XElem) (t a v : String) : Option XElem :=
  e.children.find? (fun c => c.tag == t && c.attrs.lookup a == some v)

/-- `el.get(a)`. -/
def XElem.getAttr (e : XElem) (a : String) : Option String :=
  e.attrs.lookup a

/-- Python truthiness of an `Element`: falsy iff it has no children. -/
def elemTruthy : Option XElem → Bool
  | none => false
  | some e => !e.children.isEmpty

/-- Python `a or b` on optional elements. -/
def pyOrElem (a b : Option XElem) : Option XElem :=
  if elemTruthy a then a else b

/-- Python `a or b` on element lists (`findall` results). -/
def pyOrList (a b : List XElem) : List XElem :=
  if a.isEmpty then b else a

/-- `text_or_none`: `(el.text or "").strip() if el is not None else None`. -/
def text_or_none (el : Option XElem) : Option String :=
  el.map (fun e => pyStrip (e.text.getD ""))

/-- `parse_datetime`: `None`/empty → `None`, otherwise try the known formats
(the `strptime` loop is abstracted as `strp`). -/
def parse_datetime (strp : String → Option Nat) (text : Option String) : Option Nat :=
  if strTruthy text then strp (text.getD "") else none

def atomNS : String := "\x7bhttp://www.w3.org/2005/Atom\x7d"

def contentNS : String := "\x7bhttp://purl.org/rss/1.0/modules/content/\x7d"

/-- `link_el.get("href")` — raises `AttributeError` when `link_el` is `None`
(the source guards this with `if link_el is not None`). -/
def xmlGetHref : Option XElem → Except String (Option String)
  | none => Except.error "AttributeError"
  | some e => Except.ok (e.getAttr "href")

/-- The Atom branch of the per-entry loop of `parse_feed`. -/
def parse_atom_entry (strp : String → Option Nat) (entry : XElem) : Except String Entry := do
  let title := text_or_none (pyOrElem (entry.findTag (atomNS ++ "title")) (entry.findTag "title"))
  let link_el := pyOrElem (entry.findTagAttr (atomNS ++ "link") "rel" "alternate")
    (pyOrElem (entry.findTag (atomNS ++ "link")) (entry.findTag "link"))
  let href ← match link_el with
    | some _ => xmlGetHref link_el
    | none => pure (text_or_none none)
  let guid := pyOr (text_or_none (pyOrElem (entry.findTag (atomNS ++ "id"))
    (entry.findTag "id"))) (pyOr href title)
  let summary := text_or_none (pyOrElem (entry.findTag (atomNS ++ "summary"))
    (entry.findTag "summary"))
  let content := text_or_none (pyOrElem (entry.findTag (atomNS ++ "content"))
    (entry.findTag "content"))
  let published := text_or_none (pyOrElem (entry.findTag (atomNS ++ "published"))
    (pyOrElem (entry.findTag "published")
      (pyOrElem (entry.findTag (atomNS ++ "updated")) (entry.findTag "updated"))))
  let ts := parse_datetime strp published
  pure ⟨guid, title, href, summary, content, ts.getD 0⟩

/-- The RSS branch of the per-entry loop of `parse_feed`. -/
def parse_rss_item (strp : String → Option Nat) (it : XElem) : Entry :=
  let title := text_or_none (it.findTag "title")
  let link := text_or_none (it.findTag "link")
  let guid := pyOr (text_or_none (it.findTag "guid")) (pyOr link title)
  let summary := text_or_none (it.findTag "description")
  let content := pyOr (text_or_none (it.findTag (contentNS ++ "encoded"))) summary
  let ts := parse_datetime strp (text_or_none (it.findTag "pubDate"))
  ⟨guid, title, link, summary, content, ts.getD 0⟩

/-- The Python `for` loop building the entry list, with per-entry failure
propagation. -/
def mapExcept (f : α → Except ε β) : List α → Except ε (List β)
  | [] => Except.ok []
  | x :: xs => do
    let y ← f x
    let ys ← mapExcept f xs
    pure (y :: ys)

/-- `parse_feed(feed_url, raw)` over an already-parsed tree (`none` stands for
raw bytes that are not well-formed XML, on which `ET.fromstring` raises
`ParseError` and the function returns `[]`). -/
def parse_feed (strp : String → Option Nat) (_feed_url : String)
    (raw : Option XElem) : Except String (List Entry) :=
  match raw with
  | none => Except.ok []
  | some root =>
    let tag := pyLower root.tag
    if tag.endsWith "feed" then
      mapExcept (parse_atom_entry strp)
        (pyOrList (root.findAllTag (atomNS ++ "entry")) (root.findAllTag "entry"))
    else
      let channel := (root.findTag "channel").getD root
      let nodes := pyOrList (channel.findAllTag "item") (root.findAllTag "item")
      Except.ok (nodes.map (parse_rss_item strp))

/-- The tree of `<rss><channel><item/></channel></rss>`: a syntactically valid
feed whose single item carries no guid, link or title. -/
def rssEmptyItemTree : XElem :=
  ⟨"rss", [], none, [⟨"channel", [], none, [⟨"item", [], none, []⟩]⟩]⟩

/-! ### Tagging primitives (`upsert_tag`, `replace_item_tags`,
`get_item_tag_names`) -/

/-- Tag-name normalization of `upsert_tag`: `name.strip().lower()`. -/
def normalizeTagName (s : String) : String := pyLower (pyStrip s)

/-- `upsert_tag`: normalize; empty → no id; `INSERT OR IGNORE INTO tags(name)`
then `SELECT id FROM tags WHERE name = ?`. -/
def upsert_tag (db : DB) (name : String) : DB × Option Nat :=
  let n := normalizeTagName name
  if n.data.isEmpty then (db, none)
  else
    let db1 := if db.tags.any (fun t => t.name == n) then db
      else { db with tags := db.tags ++ [⟨db.nextTagId, n⟩], nextTagId := db.nextTagId + 1 }
    (db1, (db1.tags.find? (fun t => t.name == n)).map TagRow.id)

/-- One iteration of the `for name in tag_names` loop of `replace_item_tags`:
upsert the tag, then `INSERT OR IGNORE INTO item_tags`. -/
def replaceStep (item_id : Nat) (d : DB) (name : String) : DB :=
  let r := upsert_tag d name
  match r.2 with
  | some tid =>
    if (item_id, tid) ∈ r.1.itemTags then r.1
    else { r.1 with itemTags := r.1.itemTags ++ [(item_id, tid)] }
  | none => r.1

/-- `replace_item_tags`: `DELETE FROM item_tags WHERE item_id = ?`, then for
each name upsert the tag and `INSERT OR IGNORE` the association. -/
def replace_item_tags (db : DB) (item_id : Nat) (tag_names : List String) : DB :=
  tag_names.foldl (replaceStep item_id)
    { db with itemTags := db.itemTags.filter (fun p => decide (p.1 ≠ item_id)) }

/-- Well-formedness of the tag tables: unique tag ids (`PRIMARY KEY`), unique
tag names (`UNIQUE`), ids below the autoincrement counter, and no duplicate
`item_tags` rows (composite primary key). -/
def DBWF (db : DB) : Prop :=
  (db.tags.map TagRow.id).Nodup ∧ (db.tags.map TagRow.name).Nodup ∧
    (∀ t ∈ db.tags, t.id < db.nextTagId) ∧ db.itemTags.Nodup

/-- Invariant of the `replace_item_tags` loop: after processing `processed`,
the item's associations resolve to tag rows and carry exactly the normalized
non-empty names of `processed`. -/
structure ReplaceInv (iid : Nat) (processed : List String) (d : DB) : Prop where
  wf : DBWF d
  resolves : ∀ p ∈ d.itemTags, p.1 = iid → ∃ t ∈ d.tags, t.id = p.2
  namesChar : ∀ nm : String,
    (∃ p ∈ d.itemTags, p.1 = iid ∧ ∃ t ∈ d.tags, t.id = p.2 ∧ t.name = nm) ↔
      (∃ raw ∈ processed, normalizeTagName raw = nm ∧ nm ≠ "")

/-- `get_item_tag_names`: names of the tags joined to the item, ordered by
name (`ORDER BY t.name`). -/
def get_item_tag_names (db : DB) (item_id : Nat) : List String :=
  List.insertionSort (· ≤ ·)
    ((db.itemTags.filter (fun p => p.1 == item_id)).flatMap
      (fun p => (db.tags.filter (fun t => t.id == p.2)).map TagRow.name))

/-! ### Archive-by-date and delete-by-id (`cmd_archive_date`, `cmd_delete_id`) -/

/-- Arguments of `cmd_archive_date` after date/group/source parsing:
`on`/`since`/`until` are the parsed day timestamps, `group` the parsed group
list, `source_url` the resolved source filter. `published_field` selects
`published_ts` (default) vs `created_ts`. -/
structure ArchiveDateArgs where
  undo : Bool
  published_field : Bool
  on_ts : Option Nat
  since_ts : Option Nat
  until_ts : Option Nat
  group : List String
  source_url : Option String
deriving Repr, DecidableEq

def tsField (published : Bool) (i : ItemRow) : Nat :=
  if published then i.published_ts else i.created_ts

/-- The WHERE clause built by `cmd_archive_date` (date range, group OR-filter,
source filter). -/
def archiveDateWhere (args : ArchiveDateArgs) (db : DB) (i : ItemRow) : Bool :=
  (match args.on_ts with
    | some d => decide (tsField args.published_field i ≥ d) &&
        decide (tsField args.published_field i < d + 24*3600)
    | none =>
      (match args.since_ts with
        | some s => decide (tsField args.published_field i ≥ s)
        | none => true) &&
      (match args.until_ts with
        | some u => decide (tsField args.published_field i < u)
        | none => true)) &&
  (args.group.isEmpty || args.group.any (fun g => decide ((i.feed_url, g) ∈ db.feedGroups))) &&
  (match args.source_url with
    | some u => decide (i.feed_url = u)
    | none => true)

/-- The per-row effect of the `UPDATE` of `cmd_archive_date`: archiving sets
`deleted = 1` only where the filter matches and `starred = 0`; `--undo` clears
`deleted` wherever the filter matches. -/
def archiveDateUpdate (args : ArchiveDateArgs) (db : DB) (i : ItemRow) : ItemRow :=
  if args.undo then
    (if archiveDateWhere args db i then { i with deleted := false } else i)
  else
    (if archiveDateWhere args db i && !i.starred then { i with deleted := true } else i)

/-- `cmd_archive_date`: reject a request with no date bound (exit 1, no
mutation); otherwise apply the update. -/
def cmd_archive_date (args : ArchiveDateArgs) (db : DB) : Nat × DB :=
  if args.on_ts = none ∧ args.since_ts = none ∧ args.until_ts = none then (1, db)
  else (0, { db with items := db.items.map (archiveDateUpdate args db) })

/-- Arguments of `cmd_delete_id`. -/
structure DeleteIdArgs where
  id : Option String
  undo : Bool
  force : Bool
deriving Repr, DecidableEq

/-- `UPDATE items SET deleted = ? WHERE id = ?`. -/
def setDeleted (db : DB) (iid : Nat) (v : Bool) : DB :=
  { db with items := db.items.map (fun i => if i.id == iid then { i with deleted := v } else i) }

/-- `cmd_delete_id`: parse the id token; `--undo` restores; without `--force`
a starred (or missing) item is refused with exit 1 and no mutation; otherwise
the item is soft-deleted. -/
def cmd_delete_id (args : DeleteIdArgs) (db : DB) : Nat × DB :=
  match _parse_item_id_token args.id with
  | none => (1, db)
  | some iid =>
    if args.undo then (0, setDeleted db iid false)
    else if !args.force then
      match db.items.find? (fun i => i.id == iid) with
      | none => (1, db)
      | some row =>
        if row.starred then (1, db)
        else (0, setDeleted db iid true)
    else (0, setDeleted db iid true)

/-! ### The list query (`cmd_list`) -/

/-- Substring test (SQL `LIKE '%q%'` over lower-cased ASCII). -/
def containsSub (needle : List Char) : List Char → Bool
  | [] => needle.isEmpty
  | c :: rest => needle.isPrefixOf (c :: rest) || containsSub needle rest

/-- SQL `v LIKE '%q%'`: NULL never matches; matching is case-insensitive
(ASCII model of SQLite LIKE). -/
def sqlLike (v : Option String) (q : String) : Bool :=
  match v with
  | none => false
  | some s => containsSub (pyLower q).data (pyLower s).data

/-- Does the item carry a tag with this (already normalized) name? -/
def hasTagNamed (db : DB) (iid : Nat) (n : String) : Prop :=
  ∃ t ∈ db.tags, t.name = n ∧ (iid, t.id) ∈ db.itemTags

instance (db : DB) (iid : Nat) (n : String) : Decidable (hasTagNamed db iid n) := by
  unfold hasTagNamed
  infer_instance

/-- Arguments of `cmd_list` after parsing: `group` is the parsed group list,
`tiers` the validated tier list, `tags` the lower-cased tag list,
`source_url` the resolved source filter, `new_cutoff` the `--new` time cutoff
(already computed from config), `limit` the effective limit (0 = unlimited,
mirroring Python truthiness of `eff_limit`). -/
structure ListArgs where
  group : List String
  tiers : List String
  source_url : Option String
  tags : List String
  unread_only : Bool
  read_only : Bool
  star_only : Bool
  new_cutoff : Option Nat
  published_field : Bool
  on_ts : Option Nat
  since_ts : Option Nat
  until_ts : Option Nat
  query : Option String
  limit : Option Nat
deriving Repr, DecidableEq

/-- The WHERE clause of the main `cmd_list` query, over one row of
`items JOIN feeds ON items.feed_url = feeds.url`. -/
def listWhere (args : ListArgs) (db : DB) (i : ItemRow) (f : FeedRow) : Bool :=
  decide (i.deleted = false) &&
  (args.group.isEmpty ||
    args.group.any (fun g => decide ((i.feed_url, g) ∈ db.feedGroups))) &&
  (args.tiers.isEmpty || args.tiers.any (fun t => decide (f.tier.getD "3" = t))) &&
  (match args.source_url with
    | some u => decide (i.feed_url = u)
    | none => true) &&
  (args.tags.isEmpty ||
    decide (((args.tags.dedup).filter (fun t => decide (hasTagNamed db i.id t))).length =
      args.tags.length)) &&
  (!args.unread_only || decide (i.read = false)) &&
  (args.unread_only || !args.read_only || decide (i.read = true)) &&
  (match args.new_cutoff with
    | some c => decide (i.created_ts ≥ c)
    | none => true) &&
  (match args.on_ts with
    | some d => decide (tsField args.published_field i ≥ d) &&
        decide (tsField args.published_field i < d + 24*3600)
    | none =>
      (match args.since_ts with
        | some s => decide (tsField args.published_field i ≥ s)
        | none => true) &&
      (match args.until_ts with
        | some u => decide (tsField args.published_field i < u)
        | none => true)) &&
  (match args.query with
    | some q => if q.data.isEmpty then true else (sqlLike i.title q || sqlLike i.summary q)
    | none => true) &&
  (!args.star_only || decide (i.starred = true))

/-- Default ordering of `cmd_list`: date field descending, id descending. -/
def listOrder (published : Bool) (a b : ItemRow × FeedRow) : Prop :=
  tsField published b.1 < tsField published a.1 ∨
    (tsField published a.1 = tsField published b.1 ∧ b.1.id ≤ a.1.id)

instance (published : Bool) : DecidableRel (listOrder published) := fun a b => by
  unfold listOrder
  infer_instance

/-- The joined, filtered, sorted and limited rows of the main `cmd_list`
query (`LIMIT` is skipped when the effective limit is falsy, mirroring
`limit_sql`). -/
def cmd_list_rows (args : ListArgs) (db : DB) : List (ItemRow × FeedRow) :=
  let joined := db.items.flatMap (fun i =>
    (db.feeds.filter (fun f => f.url == i.feed_url)).map (fun f => (i, f)))
  let filtered := joined.filter (fun r => listWhere args db r.1 r.2)
  let sorted := List.insertionSort (listOrder args.published_field) filtered
  match args.limit with
  | some n => if n = 0 then sorted else sorted.take n
  | none => sorted

/-- The item ids returned by `cmd_list`. -/
def cmd_list_ids (args : ListArgs) (db : DB) : List Nat :=
  (cmd_list_rows args db).map (fun r => r.1.id)

/-! ### Sources, feed upsert and the sync orchestrator (`cmd_sync`) -/

/-- One entry of the sources file (already decoded from JSON by
`read_sources_entries`). -/
structure SourceEntry where
  url : Option String
  title : Option String
  groups : List String
  tier : Option String
deriving Repr, DecidableEq

/-- `_parse_groups_arg`: split a group argument on commas/whitespace and drop
empty pieces. -/
def _parse_groups_arg (g : Option String) : List String :=
  match g with
  | none => []
  | some s =>
    ((s.data.splitOnP (fun c => c = ',' || c.isWhitespace)).map
      (fun l => (⟨l⟩ : String))).filter (fun x => !x.data.isEmpty)

/-- `INSERT INTO feeds ... ON CONFLICT(url) DO UPDATE SET grp=excluded.grp,
title=COALESCE(excluded.title, feeds.title), tier=COALESCE(excluded.tier,
feeds.tier)`. -/
def upsert_feed_row (db : DB) (url primary : String) (title : Option String)
    (tier : String) : DB :=
  if db.feeds.any (fun f => f.url == url) then
    { db with feeds := db.feeds.map (fun f =>
        if f.url == url then
          { f with
            grp := primary,
            title := (match title with | some t => some t | none => f.title),
            tier := some tier }
        else f) }
  else
    { db with feeds := db.feeds ++ [⟨url, primary, title, some tier, false, 0⟩] }

/-- `INSERT OR IGNORE INTO feed_groups(url, grp)`. -/
def insert_feed_group (db : DB) (url g : String) : DB :=
  if (url, g) ∈ db.feedGroups then db
  else { db with feedGroups := db.feedGroups ++ [(url, g)] }

/-- Processing of one source entry by `upsert_feeds`. -/
def upsert_feeds_step (only_group : Option String) (db : DB) (e : SourceEntry) : DB :=
  if !strTruthy e.url then db
  else
    let url := e.url.getD ""
    if strTruthy only_group ∧ (only_group.getD "") ∉ e.groups then db
    else
      let primary := e.groups.headD "ungrouped"
      let tier := if strTruthy e.tier then e.tier.getD "" else "3"
      let d1 := upsert_feed_row db url primary e.title tier
      let gs := if e.groups.isEmpty then [primary] else e.groups
      let d2 := gs.foldl (fun d g =>
        if strTruthy only_group ∧ g ≠ only_group.getD "" then d
        else insert_feed_group d url g) d1
      if e.groups.isEmpty then d2
      else { d2 with feedGroups :=
        d2.feedGroups.filter (fun p => !(p.1 == url && p.2 == "ungrouped")) }

/-- `upsert_feeds`. -/
def upsert_feeds (db : DB) (entries : List SourceEntry) (only_group : Option String) : DB :=
  entries.foldl (upsert_feeds_step only_group) db

/-- Does a feed row with this URL exist (`JOIN feeds ON feed_url = url`)? -/
def feedExistsB (db : DB) (url : String) : Bool :=
  db.feeds.any (fun f => f.url == url)

/-- Feed selection of `cmd_sync` for the default and `--group` selectors
(`SELECT url FROM feeds WHERE archived = 0`, or the join with `feed_groups`
for a group list). The explicit id, ids and source selectors are outside
this model. -/
def selectSyncFeeds (db : DB) (group : List String) : List String :=
  if group.isEmpty then (db.feeds.filter (fun f => !f.archived)).map FeedRow.url
  else ((db.feeds.filter (fun f => !f.archived &&
    db.feedGroups.any (fun p => p.1 == f.url && decide (p.2 ∈ group)))).map FeedRow.url)

/-- Report of one sync run: URLs for which a fetch was attempted (network
activity), and the per-stage counts. -/
structure SyncReport where
  fetched : List String
  inserted : Nat
  tagged : Nat
  exported : Nat
deriving Repr, DecidableEq

/-- The fetch stage of `cmd_sync`: one best-effort fetch per selected feed;
a failed fetch (`none`) is skipped; a successful payload goes through the
per-feed insert batch. Returns the new state, the inserted count, and the
attempted URLs. -/
def syncFetchStage (hash : String → String) (fetched : String → Option (List Entry))
    (now : Nat) : List String → DB → DB × Nat × List String
  | [], db => (db, 0, [])
  | url :: rest, db =>
    match fetched url with
    | none =>
      let r := syncFetchStage hash fetched now rest db
      (r.1, r.2.1, url :: r.2.2)
    | some entries =>
      let b := sync_batch hash url entries now db
      let r := syncFetchStage hash fetched now rest b.1
      (r.1, b.2 + r.2.1, url :: r.2.2)

/-- Ordering `ORDER BY items.published_ts DESC, items.id DESC`. -/
def itemOrder (a b : ItemRow) : Prop :=
  b.published_ts < a.published_ts ∨ (a.published_ts = b.published_ts ∧ b.id ≤ a.id)

instance : DecidableRel itemOrder := fun a b => by
  unfold itemOrder
  infer_instance

/-- The WHERE clause of the auto-tag selection of `cmd_sync`: non-deleted,
scoped to the group selection, joined to an existing feed, and (unless
`--retag-all`) with a zero `COALESCE(auto_tagged_ts, 0)` watermark. -/
def tagCond (db : DB) (group : List String) (retagAll : Bool) (i : ItemRow) : Bool :=
  !i.deleted &&
  (group.isEmpty || db.feedGroups.any (fun p => p.1 == i.feed_url && decide (p.2 ∈ group))) &&
  (retagAll || decide (i.auto_tagged_ts = 0)) &&
  feedExistsB db i.feed_url

/-- The rows selected by the auto-tag step of `cmd_sync`, ordered by
`published_ts DESC, id DESC`. -/
def tagSelect (db : DB) (group : List String) (retagAll : Bool) : List ItemRow :=
  List.insertionSort itemOrder (db.items.filter (tagCond db group retagAll))

/-- Stamp `auto_tagged_ts` on one item (`UPDATE items SET auto_tagged_ts = ?
WHERE id = ?`). -/
def stampTagged (now iid : Nat) (i : ItemRow) : ItemRow :=
  if i.id == iid then { i with auto_tagged_ts := now } else i

/-- Stamp `fs_exported_ts` on one item. -/
def stampExported (now iid : Nat) (i : ItemRow) : ItemRow :=
  if i.id == iid then { i with fs_exported_ts := now } else i

/-- One iteration of the auto-tag loop of `cmd_sync`: extract tags from the
title and the rendered body (`html_to_text` abstracted as `h2t`,
`urlparse`-based domain extraction as `hostOf`), dedup them, replace the
item's tags and stamp the watermark. -/
def tagStep (h2t : Option String → String) (hostOf : String → Option String)
    (stop : List String) (maxTags : Nat) (includeDomain : Bool) (now : Nat)
    (acc : DB × Nat) (row : ItemRow) : DB × Nat :=
  let body := h2t (pyOr row.content row.summary)
  let tags := extract_auto_tags row.title (some body) maxTags 3 stop
  let tags1 := if includeDomain ∧ strTruthy row.link then
      (match hostOf (row.link.getD "") with
        | some host => tags ++ [host]
        | none => tags)
    else tags
  let tags2 := tags1.eraseDups
  let d1 := replace_item_tags acc.1 row.id tags2
  ({ d1 with items := d1.items.map (stampTagged now row.id) }, acc.2 + 1)

/-- The auto-tag stage of `cmd_sync`: the rows are selected up front
(`fetchall`), then processed one by one. -/
def tagStage (h2t : Option String → String) (hostOf : String → Option String)
    (stop : List String) (maxTags : Nat) (includeDomain : Bool)
    (group : List String) (retagAll : Bool) (now : Nat) (db : DB) : DB × Nat :=
  (tagSelect db group retagAll).foldl
    (tagStep h2t hostOf stop maxTags includeDomain now) (db, 0)

/-- The WHERE clause of `iter_items`: group scope, non-deleted, optional
unread filter, optional `COALESCE(fs_exported_ts, 0) = 0` pending filter,
joined with `feeds`. -/
def iterCond (db : DB) (group : List String) (unreadOnly pendingOnly : Bool)
    (i : ItemRow) : Bool :=
  (group.isEmpty || db.feedGroups.any (fun p => p.1 == i.feed_url && decide (p.2 ∈ group))) &&
  !i.deleted &&
  (!unreadOnly || !i.read) &&
  (!pendingOnly || decide (i.fs_exported_ts = 0)) &&
  feedExistsB db i.feed_url

/-- `iter_items`: the export-candidate query, ordered by `published_ts DESC,
id DESC` and optionally limited (a falsy limit means no LIMIT). -/
def iter_items (db : DB) (group : List String) (unreadOnly : Bool)
    (limit : Option Nat) (pendingOnly : Bool) : List ItemRow :=
  let rows := List.insertionSort itemOrder
    (db.items.filter (iterCond db group unreadOnly pendingOnly))
  match limit with
  | some n => if n = 0 then rows else rows.take n
  | none => rows

/-- One iteration of the export loop of `cmd_sync`: write the item's file
(file writing is out of scope) and stamp its export watermark. -/
def exportStep (now : Nat) (acc : DB × Nat) (row : ItemRow) : DB × Nat :=
  ({ acc.1 with items := acc.1.items.map (stampExported now row.id) }, acc.2 + 1)

/-- The export stage of `cmd_sync`. -/
def exportStage (group : List String) (unreadOnly : Bool) (limit : Option Nat)
    (exportAll : Bool) (now : Nat) (db : DB) : DB × Nat :=
  (iter_items db group unreadOnly limit (!exportAll)).foldl (exportStep now) (db, 0)

/-- CLI arguments of `cmd_sync` (the explicit id, ids and source selectors
are outside this model; `group` is the raw group option value). -/
structure SyncArgs where
  group : Option String
  retag_all : Bool
  export_all : Bool
  clean : Bool
  unread_only : Bool
  limit : Option Nat
  auto_tags : Bool
  write_file : Bool
deriving Repr, DecidableEq

/-- Effective configuration of the sync run (config flags and the effective
`max_tags` / `include_domain` after CLI override resolution). -/
structure SyncCfg where
  sync_auto_tags : Bool
  sync_write_files : Bool
  include_domain : Bool
  max_tags : Nat
deriving Repr, DecidableEq

/-- `cmd_sync`: upsert the configured sources (no duplicate-URL validation),
select the feeds, fetch+insert each, auto-tag, then export; each stage honors
its watermark unless forced. Returns (exit code, final state, report). -/
def cmd_sync (hash : String → String) (h2t : Option String → String)
    (hostOf : String → Option String) (stop : List String) (cfg : SyncCfg)
    (args : SyncArgs) (sources : List SourceEntry)
    (fetched : String → Option (List Entry)) (now : Nat) (db : DB) :
    Nat × DB × SyncReport :=
  if sources.isEmpty then (1, db, ⟨[], 0, 0, 0⟩)
  else
    let db1 := upsert_feeds db sources args.group
    let glist := _parse_groups_arg args.group
    let urls := selectSyncFeeds db1 glist
    let f := syncFetchStage hash fetched now urls db1
    let effective_auto := args.auto_tags && cfg.sync_auto_tags
    let t := if effective_auto then
        tagStage h2t hostOf stop cfg.max_tags cfg.include_domain glist args.retag_all now f.1
      else (f.1, 0)
    let ex := if cfg.sync_write_files || args.write_file then
        exportStage glist args.unread_only args.limit (args.export_all || args.clean) now t.1
      else (t.1, 0)
    (0, ex.1, ⟨f.2.2, f.2.1, t.2, ex.2⟩)

/-- The argparse defaults of the sync command: no selector, no force flags,
auto-tags on, no forced file write. -/
def syncDefaults : SyncArgs := ⟨none, false, false, false, false, none, true, false⟩

/-- The net effect on one item row of the whole auto-tag loop having run over
rows with the given ids: its `auto_tagged_ts` watermark is stamped iff its id
was selected. -/
def markTagged (now : Nat) (ids : List Nat) (i : ItemRow) : ItemRow :=
  if i.id ∈ ids then { i with auto_tagged_ts := now } else i

/-- The net effect on one item row of the whole export loop having run over
rows with the given ids. -/
def markExported (now : Nat) (ids : List Nat) (i : ItemRow) : ItemRow :=
  if i.id ∈ ids then { i with fs_exported_ts := now } else i

/-- The stored feed URLs (`SELECT url FROM feeds`). -/
def feedUrls (db : DB) : List String := db.feeds.map FeedRow.url

/-- The `(url, archived)` projection of the feeds table: everything the
default feed selection reads. -/
def feedKeys (db : DB) : List (String × Bool) :=
  db.feeds.map (fun f => (f.url, f.archived))

/-- One item list covers another up to the dedup-relevant columns: every row
of the first has a row of the second with the same `(feed_url, guid, uid)`. -/
def dedupSubL (l l' : List ItemRow) : Prop :=
  ∀ r ∈ l, ∃ r' ∈ l', r'.feed_url = r.feed_url ∧ r'.guid = r.guid ∧ r'.uid = r.uid

/-! ### The fetch command (`cmd_fetch`) and its duplicate-URL pre-flight -/

/-- The truthy source URLs, as collected by the duplicate-URL validation of
`cmd_fetch` (`urls = [e.get("url") for e in entries if e.get("url")]`). -/
def sourceUrls (entries : List SourceEntry) : List String :=
  (entries.filter (fun e => strTruthy e.url)).map (fun e => e.url.getD "")

/-- The duplicate test of `cmd_fetch`: its `dups` set is nonempty exactly when
some truthy source URL occurs more than once. -/
def hasDupUrls (entries : List SourceEntry) : Bool :=
  (sourceUrls entries).any (fun u => 1 < (sourceUrls entries).count u)

/-- `UPDATE feeds SET last_fetch_ts = ? WHERE url = ?` after each fetch. -/
def touchFetched (now : Nat) (url : String) (db : DB) : DB :=
  { db with feeds := db.feeds.map (fun f =>
      if f.url == url then { f with last_fetch_ts := now } else f) }

/-- The per-feed loop of `cmd_fetch`: best-effort fetch, per-feed insert
batch (with the fetch-side dedup key), and the `last_fetch_ts` update; a
failed fetch is skipped. Returns the state, the total of the per-feed
deltas, and the attempted URLs. -/
def fetchLoop (hash : String → String) (fetched : String → Option (List Entry))
    (now : Nat) : List String → DB → DB × Nat × List String
  | [], db => (db, 0, [])
  | url :: rest, db =>
    match fetched url with
    | none =>
      let r := fetchLoop hash fetched now rest db
      (r.1, r.2.1, url :: r.2.2)
    | some entries =>
      let b := fetch_batch hash url entries now db
      let b1 := touchFetched now url b.1
      let r := fetchLoop hash fetched now rest b1
      (r.1, b.2 + r.2.1, url :: r.2.2)

/-- CLI arguments of `cmd_fetch` (the explicit id, ids, source and tier
selectors are outside this model). -/
structure FetchArgs where
  group : Option String
deriving Repr, DecidableEq

/-- `cmd_fetch`: an empty source list or a duplicated truthy source URL
aborts with exit code 1 before the database or the network is touched;
otherwise the sources are upserted, the feeds selected (the same
`archived = 0` and group semantics as the sync selector) and fetched one by
one. Returns (exit code, state, attempted URLs, total new rows). -/
def cmd_fetch (hash : String → String) (args : FetchArgs)
    (sources : List SourceEntry) (fetched : String → Option (List Entry))
    (now : Nat) (db : DB) : Nat × DB × List String × Nat :=
  if sources.isEmpty then (1, db, [], 0)
  else if hasDupUrls sources then (1, db, [], 0)
  else
    let db1 := upsert_feeds db sources args.group
    let glist := _parse_groups_arg args.group
    let urls := selectSyncFeeds db1 glist
    let r := fetchLoop hash fetched now urls db1
    (0, r.1, r.2.2, r.2.1)

/-! ## Theorems -/

/-! ### Facts about the short-code helpers -/

theorem b36rev_zero : b36rev 0 = [] := by
  rw [b36rev]
  simp

theorem b36rev_pos {n : Nat} (h : n ≠ 0) :
    b36rev n = b36digitChar (n % 36) :: b36rev (n / 36) := by
  rw [b36rev]
  simp [h]

theorem b36rev_eq_digits (n : Nat) :
    b36rev n = (Nat.digits 36 n).map b36digitChar := by
  induction n using Nat.strong_induction_on with
  | _ n ih =>
    rcases Nat.eq_zero_or_pos n with h | h
    · subst h; simp [b36rev_zero]
    · rw [b36rev_pos (Nat.pos_iff_ne_zero.mp h),
        Nat.digits_def' (by norm_num : (1:Nat) < 36) h]
      simp [ih (n / 36) (Nat.div_lt_self h (by norm_num))]

theorem b36CharVal_b36digitChar : ∀ d, d < 36 → b36CharVal (b36digitChar d) = some d := by
  decide

theorem b36digitChar_isDigit : ∀ d, d < 36 → ((b36digitChar d).isDigit = decide (d < 10)) := by
  decide

theorem b36digitChar_isAlpha : ∀ d, d < 36 → ((b36digitChar d).isAlpha = decide (10 ≤ d)) := by
  decide

theorem b36digitChar_not_ws : ∀ d, d < 36 → ((b36digitChar d).isWhitespace = false) := by
  decide

theorem b36digitChar_decimal : ∀ d, d < 10 → (b36digitChar d).toNat - 48 = d := by
  decide

theorem dropWhile_eq_self_of_all {p : Char → Bool} :
    ∀ {l : List Char}, (∀ c ∈ l, p c = false) → l.dropWhile p = l
  | [], _ => rfl
  | c :: cs, h => by
    simp [List.dropWhile, h c (List.mem_cons_self c cs)]

theorem pyStrip_eq_self {s : String} (h : ∀ c ∈ s.data, c.isWhitespace = false) :
    pyStrip s = s := by
  obtain ⟨d⟩ := s
  simp only [pyStrip]
  rw [dropWhile_eq_self_of_all h, dropWhile_eq_self_of_all (fun c hc => h c (by simpa using hc)),
    List.reverse_reverse]

theorem radixVal_valid (b : Nat) (val : Char → Option Nat) :
    ∀ (cs : List Char) (acc : Nat), (∀ c ∈ cs, (val c).isSome) →
      radixVal b val cs acc =
        some (cs.foldl (fun a c => a * b + (val c).getD 0) acc)
  | [], acc, _ => rfl
  | c :: cs, acc, h => by
    have hc := h c (List.mem_cons_self c cs)
    obtain ⟨d, hd⟩ := Option.isSome_iff_exists.mp hc
    simp only [radixVal, hd, List.foldl_cons, Option.getD_some]
    exact radixVal_valid b val cs (acc * b + d) (fun x hx => h x (List.mem_cons_of_mem _ hx))

theorem foldr_radix_eq_ofDigits (b : Nat) :
    ∀ (ds : List Nat) (acc : Nat),
      ds.foldr (fun d a => a * b + d) acc = acc * b ^ ds.length + Nat.ofDigits b ds
  | [], acc => by simp [Nat.ofDigits_nil]
  | d :: ds, acc => by
    simp only [List.foldr_cons, foldr_radix_eq_ofDigits b ds acc, Nat.ofDigits_cons,
      List.length_cons]
    ring

theorem radix_foldl_reverse (b : Nat) (f : Char → Nat) (ds : List Nat) (g : Nat → Char)
    (hfg : ∀ d ∈ ds, f (g d) = d) :
    ((ds.map g).reverse).foldl (fun a c => a * b + f c) 0 = Nat.ofDigits b ds := by
  rw [List.foldl_reverse]
  have : ∀ (ds' : List Nat), (∀ d ∈ ds', f (g d) = d) →
      (ds'.map g).foldr (fun c a => a * b + f c) 0 = ds'.foldr (fun d a => a * b + d) 0 := by
    intro ds'
    induction ds' with
    | nil => intro _; rfl
    | cons d t ihds =>
      intro hh
      simp only [List.map_cons, List.foldr_cons, ihds (fun x hx => hh x (List.mem_cons_of_mem _ hx)),
        hh d (List.mem_cons_self d t)]
  rw [this ds hfg, foldr_radix_eq_ofDigits b ds 0]
  simp

theorem ofDigits_ten_le_ofDigits_36 :
    ∀ ds : List Nat, (Nat.ofDigits 10 ds : Nat) ≤ Nat.ofDigits 36 ds
  | [] => by simp [Nat.ofDigits_nil]
  | d :: ds => by
    simp only [Nat.ofDigits_cons]
    have ih := ofDigits_ten_le_ofDigits_36 ds
    have h1 : 10 * (Nat.ofDigits 10 ds : Nat) ≤ 36 * (Nat.ofDigits 36 ds : Nat) :=
      le_trans (Nat.mul_le_mul_left 10 ih) (Nat.mul_le_mul_right _ (by norm_num))
    omega

theorem ofDigits_ten_lt_ofDigits_36 (d : Nat) (ds : List Nat)
    (hpos : 0 < (Nat.ofDigits 36 ds : Nat)) :
    (Nat.ofDigits 10 (d :: ds) : Nat) < Nat.ofDigits 36 (d :: ds) := by
  simp only [Nat.ofDigits_cons]
  have ih := ofDigits_ten_le_ofDigits_36 ds
  have h1 : 10 * (Nat.ofDigits 10 ds : Nat) ≤ 10 * (Nat.ofDigits 36 ds : Nat) :=
    Nat.mul_le_mul_left 10 ih
  have h2 : 10 * (Nat.ofDigits 36 ds : Nat) < 36 * (Nat.ofDigits 36 ds : Nat) :=
    Nat.mul_lt_mul_of_lt_of_le (by norm_num) (le_refl _) hpos
  omega

/-- C10: short item codes do not always round-trip. `_parse_item_id_token`
parses an all-digit token as decimal and a token containing a letter as
base 36, so parsing `_id_to_code n` returns `n` exactly when `n < 10` or the
code contains a letter; for `n ≥ 36` whose base-36 code is all digits, parsing
returns the (smaller) decimal reading of the code instead of `n`. -/
theorem c10_short_code_roundtrip (n : Nat) :
    (_parse_item_id_token (some (_id_to_code n)) = some n ↔
      (n < 10 ∨ (_id_to_code n).data.any Char.isAlpha = true)) ∧
    (36 ≤ n → (_id_to_code n).data.all Char.isDigit = true →
      _parse_item_id_token (some (_id_to_code n)) = some (decimalVal (_id_to_code n).data) ∧
        decimalVal (_id_to_code n).data < n) := by
  by_cases h36 : n < 36
  · have hcode : _id_to_code n = ⟨[b36digitChar n]⟩ := by simp [_id_to_code, h36]
    have hstrip : pyStrip ⟨[b36digitChar n]⟩ = (⟨[b36digitChar n]⟩ : String) := by
      apply pyStrip_eq_self
      intro c hc
      simp only [List.mem_singleton] at hc
      subst hc
      exact b36digitChar_not_ws n h36
    by_cases h10 : n < 10
    · have hdig : (b36digitChar n).isDigit = true := by
        rw [b36digitChar_isDigit n h36]; simpa
      have hparse : _parse_item_id_token (some (_id_to_code n)) = some n := by
        rw [hcode]
        simp only [_parse_item_id_token, hstrip]
        simp [pyIsDigit, hdig, decimalVal, b36digitChar_decimal n h10]
      refine ⟨⟨fun _ => Or.inl h10, fun _ => hparse⟩, fun hge _ => absurd hge (by omega)⟩
    · have hdig : (b36digitChar n).isDigit = false := by
        rw [b36digitChar_isDigit n h36]; simpa using h10
      have halpha : (b36digitChar n).isAlpha = true := by
        rw [b36digitChar_isAlpha n h36]; simp; omega
      have hparse : _parse_item_id_token (some (_id_to_code n)) = some n := by
        rw [hcode]
        simp only [_parse_item_id_token, hstrip]
        simp [pyIsDigit, hdig, radixVal, b36CharVal_b36digitChar n h36]
      refine ⟨⟨fun _ => Or.inr ?_, fun _ => hparse⟩, fun hge _ => absurd hge (by omega)⟩
      rw [hcode]
      simp [halpha]
  · have hne : n ≠ 0 := by omega
    have hconsform : Nat.digits 36 n = n % 36 :: Nat.digits 36 (n / 36) :=
      Nat.digits_def' (by norm_num) (by omega)
    have hcode : _id_to_code n = ⟨((Nat.digits 36 n).map b36digitChar).reverse⟩ := by
      simp [_id_to_code, h36, b36rev_eq_digits]
    have hlt : ∀ d ∈ Nat.digits 36 n, d < 36 := fun d hd =>
      Nat.digits_lt_base (by norm_num) hd
    have hofd : (Nat.ofDigits 36 (Nat.digits 36 n) : Nat) = n := Nat.ofDigits_digits 36 n
    have hstrip : pyStrip ⟨((Nat.digits 36 n).map b36digitChar).reverse⟩ =
        (⟨((Nat.digits 36 n).map b36digitChar).reverse⟩ : String) := by
      apply pyStrip_eq_self
      intro c hc
      simp only [List.mem_reverse, List.mem_map] at hc
      obtain ⟨d, hd, rfl⟩ := hc
      exact b36digitChar_not_ws d (hlt d hd)
    have hemp : (((Nat.digits 36 n).map b36digitChar).reverse).isEmpty = false := by
      rw [hconsform]
      simp
    by_cases hall : ∀ d ∈ Nat.digits 36 n, d < 10
    · have hdigall : (((Nat.digits 36 n).map b36digitChar).reverse).all Char.isDigit = true := by
        rw [List.all_eq_true]
        intro c hc
        simp only [List.mem_reverse, List.mem_map] at hc
        obtain ⟨d, hd, rfl⟩ := hc
        rw [b36digitChar_isDigit d (hlt d hd)]
        simpa using hall d hd
      have hDval : decimalVal (((Nat.digits 36 n).map b36digitChar).reverse) =
          Nat.ofDigits 10 (Nat.digits 36 n) := by
        unfold decimalVal
        exact radix_foldl_reverse 10 (fun c => c.toNat - '0'.toNat) _ b36digitChar
          (fun d hd => b36digitChar_decimal d (hall d hd))
      have hDlt : Nat.ofDigits 10 (Nat.digits 36 n) < n := by
        conv_rhs => rw [← hofd]
        rw [hconsform]
        apply ofDigits_ten_lt_ofDigits_36
        rw [Nat.ofDigits_digits]
        exact Nat.div_pos (by omega) (by norm_num)
      have hparse : _parse_item_id_token (some (_id_to_code n)) =
          some (decimalVal (((Nat.digits 36 n).map b36digitChar).reverse)) := by
        rw [hcode]
        simp only [_parse_item_id_token, hstrip]
        simp [pyIsDigit, hemp, hdigall]
      constructor
      · constructor
        · intro habs
          rw [hparse] at habs
          rw [hDval] at habs
          exact absurd (Option.some_injective _ habs) (by omega)
        · intro hrhs
          rcases hrhs with h | h
          · omega
          · exfalso
            rw [hcode] at h
            rw [List.any_eq_true] at h
            obtain ⟨c, hc, hca⟩ := h
            simp only [List.mem_reverse, List.mem_map] at hc
            obtain ⟨d, hd, rfl⟩ := hc
            rw [b36digitChar_isAlpha d (hlt d hd)] at hca
            have := hall d hd
            simp at hca
            omega
      · intro _ _
        have hdata : (_id_to_code n).data = ((Nat.digits 36 n).map b36digitChar).reverse := by
          rw [hcode]
        constructor
        · rw [hdata]
          exact hparse
        · rw [hdata, hDval]
          exact hDlt
    · push_neg at hall
      obtain ⟨d0, hd0, hd0ge⟩ := hall
      have hdigall : (((Nat.digits 36 n).map b36digitChar).reverse).all Char.isDigit = false := by
        rw [List.all_eq_false]
        refine ⟨b36digitChar d0, ?_, ?_⟩
        · rw [List.mem_reverse, List.mem_map]
          exact ⟨d0, hd0, rfl⟩
        · rw [b36digitChar_isDigit d0 (hlt d0 hd0)]
          simpa using hd0ge
      have hparse : _parse_item_id_token (some (_id_to_code n)) = some n := by
        rw [hcode]
        simp only [_parse_item_id_token, hstrip]
        have hvalid : ∀ c ∈ ((Nat.digits 36 n).map b36digitChar).reverse,
            (b36CharVal c).isSome := by
          intro c hc
          simp only [List.mem_reverse, List.mem_map] at hc
          obtain ⟨d, hd, rfl⟩ := hc
          rw [b36CharVal_b36digitChar d (hlt d hd)]
          rfl
        rw [if_neg (by simp [hemp]), if_neg (by simp [pyIsDigit, hdigall]),
          radixVal_valid 36 b36CharVal _ 0 hvalid]
        have := radix_foldl_reverse 36 (fun c => (b36CharVal c).getD 0) (Nat.digits 36 n)
          b36digitChar (fun d hd => by simp [b36CharVal_b36digitChar d (hlt d hd)])
        rw [this, hofd]
      constructor
      · refine ⟨fun _ => Or.inr ?_, fun _ => hparse⟩
        rw [hcode]
        rw [List.any_eq_true]
        refine ⟨b36digitChar d0, ?_, ?_⟩
        · rw [List.mem_reverse, List.mem_map]
          exact ⟨d0, hd0, rfl⟩
        · rw [b36digitChar_isAlpha d0 (hlt d0 hd0)]
          simpa using hd0ge
      · intro _ habs
        rw [hcode] at habs
        rw [hdigall] at habs
        cases habs

theorem b36rev_144 : b36rev 144 = ['0', '4'] := by
  rw [b36rev_pos (by norm_num), show (144:Nat) % 36 = 0 by norm_num,
    show (144:Nat) / 36 = 4 by norm_num, b36rev_pos (by norm_num),
    show (4:Nat) % 36 = 4 by norm_num, show (4:Nat) / 36 = 0 by norm_num, b36rev_zero]
  rfl

theorem id_to_code_144_all_digits : (_id_to_code 144).data.all Char.isDigit = true := by
  rw [_id_to_code, if_neg (by norm_num), b36rev_144]
  decide

/-- Witness for C10 at `n = 144`: the code is `"40"` (all digits), and parsing
it yields its decimal reading `40 < 144`. -/
theorem c10_short_code_roundtrip_witness :
    _parse_item_id_token (some (_id_to_code 144)) = some (decimalVal (_id_to_code 144).data) ∧
      decimalVal (_id_to_code 144).data < 144 :=
  (c10_short_code_roundtrip 144).2 (by norm_num) id_to_code_144_all_digits

theorem lookup0_bump (l : List (String × Nat)) (w : String) (k : Nat) (x : String) :
    lookup0 (bump l w k) x = lookup0 l x + (if x = w then k else 0) := by
  induction l with
  | nil =>
    by_cases h : x = w
    · subst h; simp [bump, lookup0]
    · have h' : ¬w = x := fun hh => h hh.symm
      simp [bump, lookup0, h, h']
  | cons p rest ih =>
    obtain ⟨a, v⟩ := p
    by_cases haw : a = w
    · subst haw
      by_cases hax : a = x
      · subst hax; simp [bump, lookup0]
      · have hax' : ¬x = a := fun hh => hax hh.symm
        simp [bump, lookup0, hax, hax']
    · by_cases hax : a = x
      · subst hax
        have hxw : ¬a = w := haw
        simp [bump, lookup0, haw, hxw]
      · simp [bump, lookup0, haw, hax, ih]

theorem keys_bump (l : List (String × Nat)) (w : String) (k : Nat) :
    keys (bump l w k) = if w ∈ keys l then keys l else keys l ++ [w] := by
  induction l with
  | nil => simp [bump, keys]
  | cons p rest ih =>
    obtain ⟨a, v⟩ := p
    by_cases haw : a = w
    · subst haw; simp [bump, keys]
    · have hne : ¬w = a := fun h => haw h.symm
      have hcons : keys (bump ((a, v) :: rest) w k) = a :: keys (bump rest w k) := by
        simp [bump, keys, haw]
      rw [hcons, ih]
      by_cases hm : w ∈ keys rest
      · simp only [keys] at hm ⊢
        simp [hm, hne]
      · simp only [keys] at hm ⊢
        simp [hm, hne]

theorem nodup_keys_bump {l : List (String × Nat)} (h : (keys l).Nodup)
    (w : String) (k : Nat) : (keys (bump l w k)).Nodup := by
  rw [keys_bump]
  by_cases hm : w ∈ keys l
  · simpa [hm] using h
  · simp only [hm, if_false]
    simpa [List.nodup_append] using ⟨h, hm⟩

theorem accumTokens_eq_bumpFold (m : Nat) (stop : List String) (k : Nat) :
    ∀ (ws : List String) (init : List (String × Nat)),
      accumTokens m stop k ws init =
        bumpFold k (ws.filter fun w => m ≤ w.length && !(decide (w ∈ stop))) init
  | [], _ => rfl
  | w :: ws, init => by
    by_cases h : w.length < m ∨ w ∈ stop
    · have hskip : (w.length < m || decide (w ∈ stop)) = true := by
        rcases h with h | h <;> simp [h]
      have hkeep : (m ≤ w.length && !(decide (w ∈ stop))) = false := by
        rcases h with h | h
        · simp [Nat.not_le_of_lt h]
        · simp [h]
      simp only [accumTokens, List.foldl_cons, hskip, if_true, List.filter_cons, hkeep]
      exact accumTokens_eq_bumpFold m stop k ws init
    · push_neg at h
      obtain ⟨h1, h2⟩ := h
      have hskip : (w.length < m || decide (w ∈ stop)) = false := by
        simp [Nat.not_lt.mpr h1, h2]
      have hkeep : (m ≤ w.length && !(decide (w ∈ stop))) = true := by
        simp [h1, h2]
      simp only [accumTokens, List.foldl_cons, hskip, if_false, Bool.false_eq_true,
        List.filter_cons, hkeep]
      exact accumTokens_eq_bumpFold m stop k ws (bump init w k)

theorem lookup0_bumpFold (k : Nat) :
    ∀ (ws : List String) (init : List (String × Nat)) (x : String),
      lookup0 (bumpFold k ws init) x = lookup0 init x + k * ws.count x
  | [], init, x => by simp [bumpFold]
  | w :: ws, init, x => by
    simp only [bumpFold, List.foldl_cons]
    rw [show (List.foldl (fun acc w => bump acc w k) (bump init w k) ws) =
      bumpFold k ws (bump init w k) from rfl]
    rw [lookup0_bumpFold k ws (bump init w k) x, lookup0_bump]
    by_cases h : x = w
    · subst h
      rw [List.count_cons_self, if_pos rfl, Nat.mul_add, Nat.mul_one]
      omega
    · rw [List.count_cons_of_ne h]
      simp [h]

theorem mem_keys_bumpFold (k : Nat) :
    ∀ (ws : List String) (init : List (String × Nat)) (x : String),
      x ∈ keys (bumpFold k ws init) ↔ x ∈ keys init ∨ x ∈ ws
  | [], init, x => by simp [bumpFold]
  | w :: ws, init, x => by
    simp only [bumpFold, List.foldl_cons]
    rw [show (List.foldl (fun acc w => bump acc w k) (bump init w k) ws) =
      bumpFold k ws (bump init w k) from rfl]
    rw [mem_keys_bumpFold k ws (bump init w k) x, keys_bump]
    by_cases hm : w ∈ keys init <;> by_cases hxw : x = w <;>
      simp [hm, hxw]

theorem nodup_keys_bumpFold (k : Nat) :
    ∀ (ws : List String) {init : List (String × Nat)}, (keys init).Nodup →
      (keys (bumpFold k ws init)).Nodup
  | [], _, h => h
  | w :: ws, init, h => by
    simp only [bumpFold, List.foldl_cons]
    exact nodup_keys_bumpFold k ws (nodup_keys_bump h w k)

theorem pair_mem_iff_of_nodup_keys :
    ∀ {l : List (String × Nat)}, (keys l).Nodup → ∀ {t : String} {v : Nat},
      ((t, v) ∈ l ↔ t ∈ keys l ∧ lookup0 l t = v)
  | [], _, t, v => by simp [keys, lookup0]
  | (a, u) :: rest, h, t, v => by
    have hk : keys ((a, u) :: rest) = a :: keys rest := rfl
    rw [hk] at h
    have hna : a ∉ keys rest := (List.nodup_cons.mp h).1
    have hrest : (keys rest).Nodup := (List.nodup_cons.mp h).2
    by_cases hta : t = a
    · subst hta
      rw [hk]
      constructor
      · intro hm
        rcases List.mem_cons.mp hm with heq | hm'
        · have hv : v = u := (Prod.ext_iff.mp heq).2
          exact ⟨List.mem_cons_self _ _, by simp [lookup0, hv]⟩
        · exact absurd (List.mem_map_of_mem Prod.fst hm') hna
      · rintro ⟨_, hv⟩
        simp only [lookup0, if_pos rfl] at hv
        subst hv
        exact List.mem_cons_self _ _
    · rw [hk]
      have hiff := @pair_mem_iff_of_nodup_keys rest hrest t v
      have hite : lookup0 ((a, u) :: rest) t = lookup0 rest t := by
        show (if a = t then u else lookup0 rest t) = lookup0 rest t
        rw [if_neg (fun hh : a = t => hta hh.symm)]
      constructor
      · intro hm
        rcases List.mem_cons.mp hm with heq | hm'
        · exact absurd (Prod.ext_iff.mp heq).1 hta
        · obtain ⟨h1, h2⟩ := hiff.mp hm'
          exact ⟨List.mem_cons_of_mem _ h1, by rw [hite]; exact h2⟩
      · rintro ⟨hmem, hv⟩
        rcases List.mem_cons.mp hmem with heq | hm'
        · exact absurd heq hta
        · rw [hite] at hv
          exact List.mem_cons_of_mem _ (hiff.mpr ⟨hm', hv⟩)

theorem nodup_of_nodup_keys {l : List (String × Nat)} (h : (keys l).Nodup) : l.Nodup :=
  List.Nodup.of_map Prod.fst h

theorem extract_auto_tags_eq_spec (title body : Option String) (N m : Nat)
    (stop : List String) :
    extract_auto_tags title body N m stop = auto_tags_spec title body N m stop := by
  simp only [extract_auto_tags, auto_tags_spec,
    accumTokens_eq_bumpFold m stop 1 (_tokenize (body.getD "")) [],
    accumTokens_eq_bumpFold m stop 2 (_tokenize (title.getD ""))]
  set tb := survivingTokens m stop body with htb
  set tt := survivingTokens m stop title with htt
  have hfb : (_tokenize (body.getD "")).filter
      (fun w => m ≤ w.length && !(decide (w ∈ stop))) = tb := rfl
  have hft : (_tokenize (title.getD "")).filter
      (fun w => m ≤ w.length && !(decide (w ∈ stop))) = tt := rfl
  rw [hfb, hft]
  set W := bumpFold 2 tt (bumpFold 1 tb []) with hW
  set P := ((tb ++ tt).dedup).map (fun t => (t, tb.count t * 1 + tt.count t * 2)) with hP
  have hNW : (keys W).Nodup :=
    nodup_keys_bumpFold 2 tt (nodup_keys_bumpFold 1 tb (by simp [keys]))
  have hmemW : ∀ x, x ∈ keys W ↔ x ∈ tb ∨ x ∈ tt := by
    intro x
    rw [hW, mem_keys_bumpFold, mem_keys_bumpFold]
    simp [keys]
  have hlookW : ∀ x, lookup0 W x = tb.count x * 1 + tt.count x * 2 := by
    intro x
    rw [hW, lookup0_bumpFold, lookup0_bumpFold]
    simp [lookup0]
    ring
  have hNP : P.Nodup := by
    rw [hP]
    exact (List.nodup_dedup _).map (fun a b hab => (Prod.ext_iff.mp hab).1)
  have hmemP : ∀ t v, ((t, v) ∈ P ↔ (t ∈ tb ∨ t ∈ tt) ∧
      v = tb.count t * 1 + tt.count t * 2) := by
    intro t v
    rw [hP]
    constructor
    · intro hm
      obtain ⟨a, ha, heq⟩ := List.mem_map.mp hm
      obtain ⟨h1, h2⟩ := Prod.ext_iff.mp heq
      subst h1
      exact ⟨by simpa using List.mem_dedup.mp ha, h2.symm⟩
    · rintro ⟨hmem, rfl⟩
      exact List.mem_map.mpr ⟨t, List.mem_dedup.mpr (by simpa using hmem), rfl⟩
  have hperm : W.Perm P := by
    rw [List.perm_ext_iff_of_nodup (nodup_of_nodup_keys hNW) hNP]
    rintro ⟨t, v⟩
    rw [pair_mem_iff_of_nodup_keys hNW, hmemW, hlookW, hmemP]
    constructor
    · rintro ⟨h1, h2⟩
      exact ⟨h1, h2.symm⟩
    · rintro ⟨h1, h2⟩
      exact ⟨h1, h2.symm⟩
  have hsorted : List.insertionSort rankLE W = List.insertionSort rankLE P :=
    List.eq_of_perm_of_sorted
      ((List.perm_insertionSort rankLE W).trans
        (hperm.trans (List.perm_insertionSort rankLE P).symm))
      (List.sorted_insertionSort rankLE W) (List.sorted_insertionSort rankLE P)
  rw [hsorted]

theorem mem_auto_tags_spec_surviving (title body : Option String) (N m : Nat)
    (stop : List String) :
    ∀ t ∈ auto_tags_spec title body N m stop, m ≤ t.length ∧ t ∉ stop := by
  intro t ht
  simp only [auto_tags_spec] at ht
  obtain ⟨p, hp, rfl⟩ := List.mem_map.mp ht
  have hp1 : p ∈ List.insertionSort rankLE
      (((survivingTokens m stop body ++ survivingTokens m stop title).dedup).map
        (fun t => (t, (survivingTokens m stop body).count t * 1 +
          (survivingTokens m stop title).count t * 2))) :=
    List.mem_of_mem_take hp
  have hp2 := (List.perm_insertionSort rankLE _).mem_iff.mp hp1
  obtain ⟨a, ha, rfl⟩ := List.mem_map.mp hp2
  have hmem := List.mem_dedup.mp ha
  rcases List.mem_append.mp hmem with hm | hm <;>
  · have := (List.mem_filter.mp hm).2
    simp only [Bool.and_eq_true, decide_eq_true_eq, Bool.not_eq_eq_eq_not,
      Bool.not_true, decide_eq_false_iff_not] at this
    exact this

/-- C4, as stated, is false: the pure-digit check of `_tokenize` is applied to
the raw token before surrounding hyphens are stripped, so the raw token
`"1234-"` survives and is then stripped to the pure-digit tag `"1234"`,
which the extraction returns. -/
theorem c4_counterexample_digit_token :
    extract_auto_tags (some "1234-") (some "") 5 3 [] = ["1234"] ∧
      pyIsDigit "1234" = true := by
  decide

/-- C4 (amended): for every title, body text, stopword set and limit `N`, the
auto-tag extraction returns the first `N` tokens ranked by (weight descending,
token ascending), where the weight of a token is (body occurrences) * 1 plus
(title occurrences) * 2 and a token survives only if it is at least 3
characters long and not a stopword; the pure-digit filter is applied to the
raw token before surrounding hyphens/underscores are stripped (so a stripped
token may itself be pure-digit). -/
theorem c4_auto_tag_ranking (title body : Option String) (N : Nat)
    (stop : List String) :
    extract_auto_tags title body N 3 stop = auto_tags_spec title body N 3 stop ∧
      ∀ t ∈ extract_auto_tags title body N 3 stop, 3 ≤ t.length ∧ t ∉ stop := by
  refine ⟨extract_auto_tags_eq_spec title body N 3 stop, ?_⟩
  rw [extract_auto_tags_eq_spec title body N 3 stop]
  exact mem_auto_tags_spec_surviving title body N 3 stop

/-! ### Totality of the feed parser -/

theorem parse_atom_entry_ok (strp : String → Option Nat) (entry : XElem) :
    ∃ en, parse_atom_entry strp entry = Except.ok en := by
  unfold parse_atom_entry
  cases h : pyOrElem (entry.findTagAttr (atomNS ++ "link") "rel" "alternate")
      (pyOrElem (entry.findTag (atomNS ++ "link")) (entry.findTag "link")) with
  | none =>
    simp only [h]
    exact ⟨_, rfl⟩
  | some e =>
    simp only [h]
    exact ⟨_, rfl⟩

theorem mapExcept_ok {α β ε : Type} {f : α → Except ε β} :
    ∀ {xs : List α}, (∀ x ∈ xs, ∃ y, f x = Except.ok y) →
      ∃ l, mapExcept f xs = Except.ok l
  | [], _ => ⟨[], rfl⟩
  | x :: xs, h => by
    obtain ⟨y, hy⟩ := h x (List.mem_cons_self x xs)
    obtain ⟨l, hl⟩ := @mapExcept_ok _ _ _ f xs (fun z hz => h z (List.mem_cons_of_mem _ hz))
    refine ⟨y :: l, ?_⟩
    simp only [mapExcept, hy, hl]
    rfl

/-- C9: the feed parser is total. For every (possibly malformed) input and
feed URL, `parse_feed` returns a list of entries and never propagates an
error; on input that is not well-formed XML it returns the empty list. -/
theorem c9_parse_feed_total (strp : String → Option Nat) (url : String)
    (raw : Option XElem) :
    (∃ l : List Entry, parse_feed strp url raw = Except.ok l) ∧
      parse_feed strp url none = Except.ok ([] : List Entry) := by
  constructor
  · cases raw with
    | none => exact ⟨[], rfl⟩
    | some root =>
      unfold parse_feed
      by_cases htag : (pyLower root.tag).endsWith "feed" = true
      · simp only [htag, if_true]
        exact mapExcept_ok (fun e _ => parse_atom_entry_ok strp e)
      · simp only [htag, if_false]
        exact ⟨_, rfl⟩
  · rfl

/-! ### Facts about `upsert_tag` -/

theorem string_eq_empty_iff {s : String} : s = "" ↔ s.data.isEmpty = true := by
  obtain ⟨d⟩ := s
  constructor
  · intro h
    rw [h]
    rfl
  · intro h
    cases d with
    | nil => rfl
    | cons c l => simp [List.isEmpty] at h

theorem upsert_tag_of_empty {db : DB} {name : String}
    (h : (normalizeTagName name).data.isEmpty = true) :
    upsert_tag db name = (db, none) := by
  unfold upsert_tag
  simp [h]

theorem upsert_tag_itemTags (db : DB) (name : String) :
    (upsert_tag db name).1.itemTags = db.itemTags := by
  unfold upsert_tag
  by_cases h1 : (normalizeTagName name).data.isEmpty = true
  · simp [h1]
  · by_cases h2 : db.tags.any (fun t => t.name == normalizeTagName name) <;>
      simp [h1, h2]

theorem upsert_tag_tags_mono {db : DB} {name : String} :
    ∀ t ∈ db.tags, t ∈ (upsert_tag db name).1.tags := by
  intro t ht
  unfold upsert_tag
  by_cases h1 : (normalizeTagName name).data.isEmpty = true
  · simpa [h1] using ht
  · by_cases h2 : db.tags.any (fun t => t.name == normalizeTagName name) <;>
      simp [h1, h2, List.mem_append, ht]

theorem upsert_tag_tags_cases (db : DB) (name : String) :
    ((upsert_tag db name).1.tags = db.tags ∧
      (upsert_tag db name).1.nextTagId = db.nextTagId ∧
      ((normalizeTagName name).data.isEmpty = true ∨
        ∃ t ∈ db.tags, t.name = normalizeTagName name)) ∨
    ((upsert_tag db name).1.tags =
        db.tags ++ [⟨db.nextTagId, normalizeTagName name⟩] ∧
      (upsert_tag db name).1.nextTagId = db.nextTagId + 1 ∧
      ¬∃ t ∈ db.tags, t.name = normalizeTagName name) := by
  unfold upsert_tag
  by_cases h1 : (normalizeTagName name).data.isEmpty = true
  · simp [h1]
  · by_cases h2 : db.tags.any (fun t => t.name == normalizeTagName name)
    · left
      have h2' := h2
      rw [List.any_eq_true] at h2'
      obtain ⟨t, htm, hn⟩ := h2'
      exact ⟨by simp [h1, h2], by simp [h1, h2], Or.inr ⟨t, htm, by simpa using hn⟩⟩
    · right
      have h2' : ∀ t ∈ db.tags, ¬t.name = normalizeTagName name := by
        intro t ht hcontra
        exact absurd (List.any_eq_true.mpr ⟨t, ht, by simpa using hcontra⟩) h2
      refine ⟨by simp [h1, h2], by simp [h1, h2], ?_⟩
      rintro ⟨t, ht, hname⟩
      exact h2' t ht hname

theorem upsert_tag_wf {db : DB} {name : String} (h : DBWF db) :
    DBWF (upsert_tag db name).1 := by
  obtain ⟨hid, hname, hbound, hit⟩ := h
  rcases upsert_tag_tags_cases db name with ⟨ht, hn, -⟩ | ⟨ht, hn, hnotin⟩
  · exact ⟨by rw [ht]; exact hid, by rw [ht]; exact hname,
      by rw [ht, hn]; exact hbound, by rw [upsert_tag_itemTags]; exact hit⟩
  · refine ⟨?_, ?_, ?_, by rw [upsert_tag_itemTags]; exact hit⟩
    · rw [ht]
      simp only [List.map_append, List.map_cons, List.map_nil]
      rw [List.nodup_append]
      refine ⟨hid, List.nodup_singleton _, ?_⟩
      intro x hx hy
      simp only [List.mem_singleton] at hy
      subst hy
      obtain ⟨t, htm, hteq⟩ := List.mem_map.mp hx
      exact absurd hteq.symm (Nat.ne_of_lt (hbound t htm)).symm
    · rw [ht]
      simp only [List.map_append, List.map_cons, List.map_nil]
      rw [List.nodup_append]
      refine ⟨hname, List.nodup_singleton _, ?_⟩
      intro x hx hy
      simp only [List.mem_singleton] at hy
      subst hy
      obtain ⟨t, htm, hteq⟩ := List.mem_map.mp hx
      exact hnotin ⟨t, htm, hteq⟩
    · rw [ht, hn]
      intro t htm
      rcases List.mem_append.mp htm with hm | hm
      · exact Nat.lt_succ_of_lt (hbound t hm)
      · simp only [List.mem_singleton] at hm
        subst hm
        exact Nat.lt_succ_self _

theorem upsert_tag_snd {db : DB} {name : String}
    (hne : (normalizeTagName name).data.isEmpty = false) :
    (upsert_tag db name).2 =
      ((upsert_tag db name).1.tags.find?
        (fun t => t.name == normalizeTagName name)).map TagRow.id := by
  unfold upsert_tag
  simp only [hne]
  by_cases h2 : db.tags.any (fun t => t.name == normalizeTagName name) <;> simp [h2]

theorem upsert_tag_some {db : DB} {name : String}
    (hne : (normalizeTagName name).data.isEmpty = false) :
    ∃ tid, (upsert_tag db name).2 = some tid ∧
      ∃ t ∈ (upsert_tag db name).1.tags, t.id = tid ∧ t.name = normalizeTagName name := by
  have hmem : ∃ t ∈ (upsert_tag db name).1.tags, t.name = normalizeTagName name := by
    rcases upsert_tag_tags_cases db name with ⟨ht, _, hcase⟩ | ⟨ht, _, _⟩
    · rcases hcase with hemp | ⟨t, htm, hn⟩
      · rw [hemp] at hne
        cases hne
      · exact ⟨t, by rw [ht]; exact htm, hn⟩
    · rw [ht]
      exact ⟨⟨db.nextTagId, normalizeTagName name⟩, by simp, rfl⟩
  obtain ⟨t, htm, hn⟩ := hmem
  have hsome : ((upsert_tag db name).1.tags.find?
      (fun t => t.name == normalizeTagName name)).isSome := by
    rw [List.find?_isSome]
    exact ⟨t, htm, by simpa using hn⟩
  obtain ⟨t', ht'⟩ := Option.isSome_iff_exists.mp hsome
  refine ⟨t'.id, ?_, t', List.mem_of_find?_eq_some ht', rfl, ?_⟩
  · rw [upsert_tag_snd hne, ht']
    rfl
  · have := List.find?_some ht'
    simpa using this

theorem tag_rows_inj_on_id {db : DB} (h : DBWF db) {t t' : TagRow}
    (ht : t ∈ db.tags) (ht' : t' ∈ db.tags) (heq : t.id = t'.id) : t = t' :=
  List.inj_on_of_nodup_map h.1 ht ht' heq

theorem tag_rows_inj_on_name {db : DB} (h : DBWF db) {t t' : TagRow}
    (ht : t ∈ db.tags) (ht' : t' ∈ db.tags) (heq : t.name = t'.name) : t = t' :=
  List.inj_on_of_nodup_map h.2.1 ht ht' heq

/-- After `upsert_tag`, the name resolved by an id that already resolved in
`db` is unchanged: the only possibly-new tag row has a fresh id. -/
theorem upsert_tag_names_preserved {db : DB} {name : String} (hwf : DBWF db)
    {tid : Nat} (hres : ∃ t ∈ db.tags, t.id = tid) (nm : String) :
    ((∃ t ∈ (upsert_tag db name).1.tags, t.id = tid ∧ t.name = nm) ↔
      (∃ t ∈ db.tags, t.id = tid ∧ t.name = nm)) := by
  rcases upsert_tag_tags_cases db name with ⟨ht, -, -⟩ | ⟨ht, -, -⟩
  · rw [ht]
  · rw [ht]
    constructor
    · rintro ⟨t, htm, hid, hnm⟩
      rcases List.mem_append.mp htm with hm | hm
      · exact ⟨t, hm, hid, hnm⟩
      · simp only [List.mem_singleton] at hm
        subst hm
        obtain ⟨t0, ht0, hid0⟩ := hres
        simp only at hid
        have := hwf.2.2.1 t0 ht0
        omega
    · rintro ⟨t, htm, hid, hnm⟩
      exact ⟨t, List.mem_append.mpr (Or.inl htm), hid, hnm⟩

theorem replaceStep_inv {iid : Nat} {pr : List String} {d : DB} {name : String}
    (h : ReplaceInv iid pr d) :
    ReplaceInv iid (pr ++ [name]) (replaceStep iid d name) := by
  by_cases hemp : (normalizeTagName name).data.isEmpty = true
  · have hstep : replaceStep iid d name = d := by
      unfold replaceStep
      rw [upsert_tag_of_empty hemp]
    rw [hstep]
    refine ⟨h.wf, h.resolves, ?_⟩
    intro nm
    rw [h.namesChar nm]
    constructor
    · rintro ⟨raw, hraw, hn, hne⟩
      exact ⟨raw, List.mem_append.mpr (Or.inl hraw), hn, hne⟩
    · rintro ⟨raw, hraw, hn, hne⟩
      rcases List.mem_append.mp hraw with hm | hm
      · exact ⟨raw, hm, hn, hne⟩
      · simp only [List.mem_singleton] at hm
        subst hm
        rw [← hn] at hne
        exact absurd (string_eq_empty_iff.mpr hemp) hne
  · have hemp' : (normalizeTagName name).data.isEmpty = false :=
      Bool.eq_false_iff.mpr hemp
    obtain ⟨tid, htid, trow, htrow, htrowid, htrowname⟩ := @upsert_tag_some d _ hemp'
    have hwf1 : DBWF (upsert_tag d name).1 := upsert_tag_wf h.wf
    have hit1 : (upsert_tag d name).1.itemTags = d.itemTags := upsert_tag_itemTags d name
    have hres1 : ∀ p ∈ (upsert_tag d name).1.itemTags, p.1 = iid →
        ∃ t ∈ (upsert_tag d name).1.tags, t.id = p.2 := by
      intro p hp hpid
      rw [hit1] at hp
      obtain ⟨t, htm, hteq⟩ := h.resolves p hp hpid
      exact ⟨t, upsert_tag_tags_mono t htm, hteq⟩
    have hchar1 : ∀ nm : String,
        (∃ p ∈ (upsert_tag d name).1.itemTags, p.1 = iid ∧
          ∃ t ∈ (upsert_tag d name).1.tags, t.id = p.2 ∧ t.name = nm) ↔
        (∃ raw ∈ pr, normalizeTagName raw = nm ∧ nm ≠ "") := by
      intro nm
      rw [← h.namesChar nm]
      constructor
      · rintro ⟨p, hp, hpid, hres⟩
        rw [hit1] at hp
        refine ⟨p, hp, hpid, ?_⟩
        exact (upsert_tag_names_preserved h.wf (h.resolves p hp hpid) nm).mp hres
      · rintro ⟨p, hp, hpid, hres⟩
        refine ⟨p, by rw [hit1]; exact hp, hpid, ?_⟩
        exact (upsert_tag_names_preserved h.wf (h.resolves p hp hpid) nm).mpr hres
    have hstep : replaceStep iid d name =
        (if (iid, tid) ∈ (upsert_tag d name).1.itemTags then (upsert_tag d name).1
          else { (upsert_tag d name).1 with
            itemTags := (upsert_tag d name).1.itemTags ++ [(iid, tid)] }) := by
      show (match (upsert_tag d name).2 with
        | some tid =>
          if (iid, tid) ∈ (upsert_tag d name).1.itemTags then (upsert_tag d name).1
          else { (upsert_tag d name).1 with
            itemTags := (upsert_tag d name).1.itemTags ++ [(iid, tid)] }
        | none => (upsert_tag d name).1) = _
      rw [htid]
    have hnne : normalizeTagName name ≠ "" := by
      intro hcontra
      rw [string_eq_empty_iff.mp hcontra] at hemp'
      cases hemp'
    by_cases hmem : (iid, tid) ∈ (upsert_tag d name).1.itemTags
    · -- the association already exists: the invariant's right-hand side
      -- already contains the normalized name, so nothing changes
      have hLHSd : ∃ p ∈ d.itemTags, p.1 = iid ∧
          ∃ t ∈ d.tags, t.id = p.2 ∧ t.name = normalizeTagName name := by
        have hp : (iid, tid) ∈ d.itemTags := by rw [← hit1]; exact hmem
        obtain ⟨t0, ht0, ht0id⟩ := h.resolves (iid, tid) hp rfl
        have ht0u : t0 ∈ (upsert_tag d name).1.tags := upsert_tag_tags_mono t0 ht0
        have ht0eq : t0 = trow :=
          tag_rows_inj_on_id hwf1 ht0u htrow (by rw [ht0id, htrowid])
        exact ⟨(iid, tid), hp, rfl, t0, ht0, ht0id, by rw [ht0eq, htrowname]⟩
      have hnRHS := (h.namesChar (normalizeTagName name)).mp hLHSd
      rw [hstep, if_pos hmem]
      refine ⟨hwf1, hres1, ?_⟩
      intro nm
      rw [hchar1 nm]
      constructor
      · rintro ⟨raw, hraw, hn, hne⟩
        exact ⟨raw, List.mem_append.mpr (Or.inl hraw), hn, hne⟩
      · rintro ⟨raw, hraw, hn, hne⟩
        rcases List.mem_append.mp hraw with hm | hm
        · exact ⟨raw, hm, hn, hne⟩
        · simp only [List.mem_singleton] at hm
          subst hm
          rw [← hn]
          exact hnRHS
    · -- genuinely new association appended
      rw [hstep, if_neg hmem]
      refine ⟨?_, ?_, ?_⟩
      · obtain ⟨h1, h2, h3, h4⟩ := hwf1
        refine ⟨h1, h2, h3, ?_⟩
        simp only [List.nodup_append, List.nodup_singleton]
        exact ⟨h4, by trivial, fun p hp hp' => hmem (by
          simp only [List.mem_singleton] at hp'
          exact hp' ▸ hp)⟩
      · intro p hp hpid
        rcases List.mem_append.mp hp with hm | hm
        · exact hres1 p hm hpid
        · simp only [List.mem_singleton] at hm
          subst hm
          exact ⟨trow, htrow, htrowid⟩
      · intro nm
        constructor
        · rintro ⟨p, hp, hpid, t, htm, htid', htnm⟩
          rcases List.mem_append.mp hp with hm | hm
          · exact ((hchar1 nm).mp ⟨p, hm, hpid, t, htm, htid', htnm⟩).imp
              (fun raw hraw => ⟨List.mem_append.mpr (Or.inl hraw.1), hraw.2⟩)
          · simp only [List.mem_singleton] at hm
            subst hm
            have hteq : t = trow :=
              tag_rows_inj_on_id hwf1 htm htrow (by rw [htid', htrowid])
            refine ⟨name, List.mem_append.mpr (Or.inr (List.mem_singleton_self name)), ?_, ?_⟩
            · rw [← htnm, hteq, htrowname]
            · rw [← htnm, hteq, htrowname]
              exact hnne
        · rintro ⟨raw, hraw, hn, hne⟩
          rcases List.mem_append.mp hraw with hm | hm
          · obtain ⟨p, hp, hpid, t, htm, htid', htnm⟩ := (hchar1 nm).mpr ⟨raw, hm, hn, hne⟩
            exact ⟨p, List.mem_append.mpr (Or.inl hp), hpid, t, htm, htid', htnm⟩
          · simp only [List.mem_singleton] at hm
            subst hm
            exact ⟨(iid, tid), List.mem_append.mpr (Or.inr (List.mem_singleton_self _)),
              rfl, trow, htrow, htrowid, by rw [htrowname, hn]⟩

theorem foldl_replaceStep_inv {iid : Nat} :
    ∀ (names : List String) {pr : List String} {d : DB}, ReplaceInv iid pr d →
      ReplaceInv iid (pr ++ names) (names.foldl (replaceStep iid) d)
  | [], pr, d, h => by simpa using h
  | n :: ns, pr, d, h => by
    have h1 := foldl_replaceStep_inv ns (@replaceStep_inv _ _ _ n h)
    rw [List.append_cons]
    exact h1

theorem replace_item_tags_inv {db : DB} (hwf : DBWF db) (iid : Nat)
    (names : List String) :
    ReplaceInv iid names (replace_item_tags db iid names) := by
  have hbase : ReplaceInv iid []
      { db with itemTags := db.itemTags.filter (fun p => decide (p.1 ≠ iid)) } := by
    refine ⟨⟨hwf.1, hwf.2.1, hwf.2.2.1, List.Nodup.filter _ hwf.2.2.2⟩, ?_, ?_⟩
    · intro p hp hpid
      have := List.of_mem_filter hp
      simp only [decide_eq_true_eq] at this
      exact absurd hpid this
    · intro nm
      constructor
      · rintro ⟨p, hp, hpid, -⟩
        have := List.of_mem_filter hp
        simp only [decide_eq_true_eq] at this
        exact absurd hpid this
      · rintro ⟨raw, hraw, -⟩
        cases hraw
  have h := foldl_replaceStep_inv names hbase
  rw [List.nil_append] at h
  exact h

/-- Unsorted tag names joined to an item (the rows of the
`get_item_tag_names` query before `ORDER BY`). -/
theorem mem_get_item_tag_names {d : DB} {iid : Nat} {nm : String} :
    nm ∈ get_item_tag_names d iid ↔
      ∃ p ∈ d.itemTags, p.1 = iid ∧ ∃ t ∈ d.tags, t.id = p.2 ∧ t.name = nm := by
  unfold get_item_tag_names
  rw [(List.perm_insertionSort _ _).mem_iff, List.mem_flatMap]
  constructor
  · rintro ⟨p, hp, hnm⟩
    obtain ⟨t, ht, rfl⟩ := List.mem_map.mp hnm
    refine ⟨p, List.mem_of_mem_filter hp, ?_, t, List.mem_of_mem_filter ht, ?_, rfl⟩
    · have := List.of_mem_filter hp
      simpa using this
    · have := List.of_mem_filter ht
      simpa using this
  · rintro ⟨p, hp, hpid, t, ht, htid, rfl⟩
    refine ⟨p, List.mem_filter.mpr ⟨hp, by simpa using hpid⟩, ?_⟩
    exact List.mem_map.mpr ⟨t, List.mem_filter.mpr ⟨ht, by simpa using htid⟩, rfl⟩

theorem get_item_tag_names_nodup {d : DB} (hwf : DBWF d) (iid : Nat) :
    (get_item_tag_names d iid).Nodup := by
  unfold get_item_tag_names
  rw [(List.perm_insertionSort _ _).nodup_iff, List.nodup_flatMap]
  constructor
  · intro p _
    have hsub : ((d.tags.filter (fun t => t.id == p.2)).map TagRow.name).Sublist
        (d.tags.map TagRow.name) := (List.filter_sublist _).map _
    exact hwf.2.1.sublist hsub
  · have hnd : (d.itemTags.filter (fun p => p.1 == iid)).Nodup :=
      List.Nodup.filter _ hwf.2.2.2
    refine List.Pairwise.imp_of_mem ?_ hnd
    intro p q hp hq hne
    have hp1 : p.1 = iid := by simpa using List.of_mem_filter hp
    have hq1 : q.1 = iid := by simpa using List.of_mem_filter hq
    intro nm hnm1 hnm2
    obtain ⟨t, ht, rfl⟩ := List.mem_map.mp hnm1
    obtain ⟨t', ht', hteq⟩ := List.mem_map.mp hnm2
    have htid : t.id = p.2 := by simpa using List.of_mem_filter ht
    have ht'id : t'.id = q.2 := by simpa using List.of_mem_filter ht'
    have heq : t' = t := tag_rows_inj_on_name hwf (List.mem_of_mem_filter ht')
      (List.mem_of_mem_filter ht) hteq
    apply hne
    have hsnd : p.2 = q.2 := by rw [← htid, ← ht'id, heq]
    exact Prod.ext (by rw [hp1, hq1]) hsnd

/-- C6: re-tagging an item is a total replacement. After
`replace_item_tags db iid names` the item is associated with exactly the
normalized, deduplicated, non-empty names in `names` (no prior association
survives), and running the same replacement a second time yields an identical
tag list, never a superset. -/
theorem c6_tag_replacement_total (db : DB) (iid : Nat) (names : List String)
    (hwf : DBWF db) :
    (∀ nm, nm ∈ get_item_tag_names (replace_item_tags db iid names) iid ↔
      ∃ raw ∈ names, normalizeTagName raw = nm ∧ nm ≠ "") ∧
    get_item_tag_names (replace_item_tags (replace_item_tags db iid names) iid names) iid =
      get_item_tag_names (replace_item_tags db iid names) iid := by
  have h1 := replace_item_tags_inv hwf iid names
  refine ⟨fun nm => by rw [mem_get_item_tag_names]; exact h1.namesChar nm, ?_⟩
  have h2 := replace_item_tags_inv h1.wf iid names
  have hperm : (get_item_tag_names
        (replace_item_tags (replace_item_tags db iid names) iid names) iid).Perm
      (get_item_tag_names (replace_item_tags db iid names) iid) := by
    rw [List.perm_ext_iff_of_nodup (get_item_tag_names_nodup h2.wf iid)
      (get_item_tag_names_nodup h1.wf iid)]
    intro nm
    rw [mem_get_item_tag_names, mem_get_item_tag_names, h2.namesChar nm, h1.namesChar nm]
  have hs2 : (get_item_tag_names
      (replace_item_tags (replace_item_tags db iid names) iid names) iid).Sorted
        (· ≤ ·) := List.sorted_insertionSort _ _
  have hs1 : (get_item_tag_names (replace_item_tags db iid names) iid).Sorted
      (· ≤ ·) := List.sorted_insertionSort _ _
  exact List.eq_of_perm_of_sorted hperm hs2 hs1

/-- Witness for C6: replacing the tags of item 1 with
`["  Rust ", "rust", "", "news"]` in the empty store associates it with
exactly `{"rust", "news"}`, and a second identical replacement changes
nothing. -/
theorem c6_tag_replacement_total_witness :
    ("rust" ∈ get_item_tag_names (replace_item_tags emptyDB 1 ["  Rust ", "rust", "", "news"]) 1 ↔
      ∃ raw ∈ ["  Rust ", "rust", "", "news"], normalizeTagName raw = "rust" ∧ "rust" ≠ "") ∧
    get_item_tag_names
        (replace_item_tags (replace_item_tags emptyDB 1 ["  Rust ", "rust", "", "news"]) 1
          ["  Rust ", "rust", "", "news"]) 1 =
      get_item_tag_names (replace_item_tags emptyDB 1 ["  Rust ", "rust", "", "news"]) 1 :=
  ⟨(c6_tag_replacement_total emptyDB 1 ["  Rust ", "rust", "", "news"]
      (by constructor <;> simp [emptyDB])).1 "rust",
    (c6_tag_replacement_total emptyDB 1 ["  Rust ", "rust", "", "news"]
      (by constructor <;> simp [emptyDB])).2⟩

/-! ### Idempotence of the per-feed insert batch -/

theorem fetch_batch_fst (hash : String → String) (url : String) (entries : List Entry)
    (now : Nat) (db : DB) :
    (fetch_batch hash url entries now db).1 =
      entries.foldl (fetch_insert_entry hash url now) db := rfl

theorem fetch_batch_snd (hash : String → String) (url : String) (entries : List Entry)
    (now : Nat) (db : DB) :
    (fetch_batch hash url entries now db).2 =
      countFeedItems (entries.foldl (fetch_insert_entry hash url now) db) url -
        countFeedItems db url := rfl

theorem mem_items_insert_item {db : DB} {r : ItemRow} (h : r ∈ db.items)
    (f : String) (g u t l s c : Option String) (p cr : Nat) :
    r ∈ (insert_item db f g u t l s c p cr).items := by
  unfold insert_item
  split
  · exact h
  · exact List.mem_append.mpr (Or.inl h)

theorem mem_items_fetch_fold (hash : String → String) (url : String) (now : Nat) :
    ∀ (entries : List Entry) {db : DB} {r : ItemRow}, r ∈ db.items →
      r ∈ (entries.foldl (fetch_insert_entry hash url now) db).items
  | [], _, _, h => h
  | e :: rest, db, r, h => by
    simp only [List.foldl_cons]
    exact mem_items_fetch_fold hash url now rest
      (mem_items_insert_item h url e.guid (uid_fetch hash e) e.title e.link e.summary
        e.content _ now)

theorem conflict_mono {db db' : DB} {f : String} {g u : Option String}
    (hsub : ∀ r ∈ db.items, r ∈ db'.items)
    (h : itemInsertConflict db f g u) : itemInsertConflict db' f g u := by
  obtain ⟨r, hr, hrest⟩ := h
  exact ⟨r, hsub r hr, hrest⟩

theorem conflicts_after_fetch_fold (hash : String → String) (url : String) (now : Nat) :
    ∀ (entries : List Entry) (db : DB) (e : Entry), e ∈ entries →
      uid_fetch hash e ≠ none →
      itemInsertConflict (entries.foldl (fetch_insert_entry hash url now) db) url
        e.guid (uid_fetch hash e)
  | [], _, e, he, _ => absurd he (List.not_mem_nil e)
  | e0 :: rest, db, e, he, hu => by
    simp only [List.foldl_cons]
    rcases List.mem_cons.mp he with rfl | hm
    · have hconf : itemInsertConflict (fetch_insert_entry hash url now db e) url
          e.guid (uid_fetch hash e) := by
        unfold fetch_insert_entry insert_entry insert_item
        by_cases hc : itemInsertConflict db url e.guid (uid_fetch hash e)
        · rw [if_pos hc]
          exact hc
        · rw [if_neg hc]
          refine ⟨⟨db.nextItemId, url, e.guid, uid_fetch hash e, e.title, e.link,
            e.summary, e.content, (if e.published_ts = 0 then now else e.published_ts),
            now, false, false, false, 0, 0⟩,
            by simp, rfl, Or.inr ⟨hu, rfl⟩⟩
      exact conflict_mono (fun r hr => mem_items_fetch_fold hash url now rest hr) hconf
    · exact conflicts_after_fetch_fold hash url now rest
        (fetch_insert_entry hash url now db e0) e hm hu

theorem fetch_fold_noop (hash : String → String) (url : String) (now : Nat) :
    ∀ (entries : List Entry) (db : DB),
      (∀ e ∈ entries, itemInsertConflict db url e.guid (uid_fetch hash e)) →
      entries.foldl (fetch_insert_entry hash url now) db = db
  | [], _, _ => rfl
  | e :: rest, db, h => by
    simp only [List.foldl_cons]
    have hstep : fetch_insert_entry hash url now db e = db := by
      unfold fetch_insert_entry insert_entry insert_item
      rw [if_pos (h e (List.mem_cons_self e rest))]
    rw [hstep]
    exact fetch_fold_noop hash url now rest db
      (fun e' he' => h e' (List.mem_cons_of_mem _ he'))

theorem uidUnique_insert_item {db : DB} (h : uidUnique db)
    (f : String) (g u t l s c : Option String) (p cr : Nat) :
    uidUnique (insert_item db f g u t l s c p cr) := by
  unfold insert_item
  by_cases hc : itemInsertConflict db f g u
  · rw [if_pos hc]
    exact h
  · rw [if_neg hc]
    unfold uidUnique at h ⊢
    simp only []
    rw [List.pairwise_append]
    refine ⟨h, List.pairwise_singleton _ _, ?_⟩
    intro a ha b hb
    simp only [List.mem_singleton] at hb
    subst hb
    rintro ⟨hfeed, hsome, hequ⟩
    dsimp only at hfeed hequ
    exact hc ⟨a, ha, hfeed, Or.inr ⟨by rw [← hequ]; exact hsome, hequ⟩⟩

theorem uidUnique_fetch_fold (hash : String → String) (url : String) (now : Nat) :
    ∀ (entries : List Entry) {db : DB}, uidUnique db →
      uidUnique (entries.foldl (fetch_insert_entry hash url now) db)
  | [], _, h => h
  | e :: rest, db, h => by
    simp only [List.foldl_cons]
    exact uidUnique_fetch_fold hash url now rest
      (uidUnique_insert_item h url e.guid (uid_fetch hash e) e.title e.link e.summary
        e.content _ now)

/-- C1 as stated is false: an RSS `<item/>` with no guid, link or title parses
to an entry with an empty dedup base, so its `uid` is SQL NULL; NULLs never
conflict under SQLite UNIQUE, and re-running the identical payload inserts the
row a second time (delta 1, not 0). -/
theorem c1_counterexample_null_uid :
    parse_feed (fun _ => none) "u" (some rssEmptyItemTree) =
        Except.ok [⟨none, none, none, none, none, 0⟩] ∧
      (fetch_batch (fun s => s) "u" [⟨none, none, none, none, none, 0⟩] 7
        (fetch_batch (fun s => s) "u" [⟨none, none, none, none, none, 0⟩] 3
          emptyDB).1).2 = 1 := by
  constructor
  · rfl
  · decide

/-- C1 (amended): for every feed URL and parsed entry list in which every
entry has a non-empty dedup base (non-NULL uid), re-running the per-feed
insert batch on an unchanged payload inserts zero new rows, and the batch
preserves the invariant that no two rows share an identical (feed_url, uid)
pair with non-NULL uid. -/
theorem c1_idempotent_ingestion (hash : String → String) (url : String)
    (entries : List Entry) (now1 now2 : Nat) (db : DB)
    (hbase : ∀ e ∈ entries, uid_fetch hash e ≠ none) :
    (fetch_batch hash url entries now2 (fetch_batch hash url entries now1 db).1).2 = 0 ∧
      (uidUnique db → uidUnique (fetch_batch hash url entries now1 db).1) := by
  constructor
  · rw [fetch_batch_fst, fetch_batch_snd]
    rw [fetch_fold_noop hash url now2 entries _ (fun e he =>
      conflicts_after_fetch_fold hash url now1 entries db e he (hbase e he))]
    exact Nat.sub_self _
  · intro h
    rw [fetch_batch_fst]
    exact uidUnique_fetch_fold hash url now1 entries h

/-- Witness for C1 at a one-entry payload with a guid: the second batch
inserts 0 rows and uid-uniqueness is preserved. -/
theorem c1_idempotent_ingestion_witness :
    (fetch_batch (fun s => s) "u" [⟨some "g1", some "t", some "l", none, none, 5⟩] 9
      (fetch_batch (fun s => s) "u" [⟨some "g1", some "t", some "l", none, none, 5⟩] 3
        emptyDB).1).2 = 0 ∧
      (uidUnique emptyDB →
        uidUnique (fetch_batch (fun s => s) "u"
          [⟨some "g1", some "t", some "l", none, none, 5⟩] 3 emptyDB).1) :=
  c1_idempotent_ingestion (fun s => s) "u"
    [⟨some "g1", some "t", some "l", none, none, 5⟩] 3 9 emptyDB (by decide)

/-! ### Dedup key stability (C2) -/

theorem pyOr_of_falsy {a b : Option String} (h : strTruthy a = false) : pyOr a b = b := by
  unfold pyOr
  rw [h]
  rfl

theorem pyOr_of_truthy {a b : Option String} (h : strTruthy a = true) : pyOr a b = a := by
  unfold pyOr
  rw [h]
  rfl

/-- C2 as stated is false: two identical entries of the same feed with the
identical non-empty link `" "` (and no GUID) do not collapse — the link strips
to the empty string, the dedup base is empty, the uid is NULL, and both rows
are stored. -/
theorem c2_counterexample_whitespace_link :
    (Entry.link ⟨none, some "t", some " ", none, none, 0⟩ =
        Entry.link ⟨none, some "t", some " ", none, none, 0⟩) ∧
      strTruthy (Entry.guid ⟨none, some "t", some " ", none, none, 0⟩) = false ∧
      strTruthy (Entry.link ⟨none, some "t", some " ", none, none, 0⟩) = true ∧
      (fetch_batch (fun s => s) "u"
        [⟨none, some "t", some " ", none, none, 0⟩,
          ⟨none, some "t", some " ", none, none, 0⟩] 3 emptyDB).1.items.length = 2 := by
  refine ⟨rfl, rfl, rfl, ?_⟩
  decide

/-- C2 (amended): the dedup key is a hash of the first Python-truthy field
among GUID, link, title, stripped. For entries of the same feed with the same
truthy link: the keys can differ only if a truthy GUID is involved and the
GUIDs differ; when both GUIDs are absent (falsy) the keys are equal, and if
moreover the link strips to a non-empty string, inserting both entries stores
a single item. -/
theorem c2_dedup_key_stability (hash : String → String) (e1 e2 : Entry)
    (hlink : e1.link = e2.link) (hl : strTruthy e1.link = true) :
    ((e1.guid = e2.guid ∨ (strTruthy e1.guid = false ∧ strTruthy e2.guid = false)) →
      uid_fetch hash e1 = uid_fetch hash e2) ∧
    (strTruthy e1.guid = false → strTruthy e2.guid = false →
      (pyStrip (e1.link.getD "")).data.isEmpty = false →
      ∀ url now, (fetch_batch hash url [e1, e2] now emptyDB).1.items.length = 1) := by
  have hl2 : strTruthy e2.link = true := hlink ▸ hl
  have key_no_guid : ∀ e : Entry, strTruthy e.guid = false → strTruthy e.link = true →
      uid_fetch hash e =
        (if (pyStrip (e.link.getD "")).data.isEmpty then none
          else some (hash (pyStrip (e.link.getD "")))) := by
    intro e hg hle
    unfold uid_fetch
    rw [pyOr_of_falsy hg, pyOr_of_truthy hle]
  have key_guid : ∀ e : Entry, strTruthy e.guid = true →
      uid_fetch hash e =
        (if (pyStrip (e.guid.getD "")).data.isEmpty then none
          else some (hash (pyStrip (e.guid.getD "")))) := by
    intro e hg
    unfold uid_fetch
    rw [pyOr_of_truthy hg]
  constructor
  · rintro (hg | ⟨hg1, hg2⟩)
    · by_cases ht : strTruthy e1.guid = true
      · rw [key_guid e1 ht, key_guid e2 (hg ▸ ht), hg]
      · have ht1 : strTruthy e1.guid = false := Bool.eq_false_iff.mpr ht
        rw [key_no_guid e1 ht1 hl, key_no_guid e2 (hg ▸ ht1) hl2, hlink]
    · rw [key_no_guid e1 hg1 hl, key_no_guid e2 hg2 hl2, hlink]
  · intro hg1 hg2 hne url now
    have huid1 : uid_fetch hash e1 = some (hash (pyStrip (e1.link.getD ""))) := by
      rw [key_no_guid e1 hg1 hl, if_neg (by rw [hne]; intro h; cases h)]
    have huid2 : uid_fetch hash e2 = uid_fetch hash e1 := by
      rw [key_no_guid e1 hg1 hl, key_no_guid e2 hg2 hl2, hlink]
    rw [fetch_batch_fst]
    simp only [List.foldl_cons, List.foldl_nil]
    have hstep1 : fetch_insert_entry hash url now emptyDB e1 =
        { emptyDB with
          items := [⟨1, url, e1.guid, uid_fetch hash e1, e1.title, e1.link, e1.summary,
            e1.content, (if e1.published_ts = 0 then now else e1.published_ts), now,
            false, false, false, 0, 0⟩],
          nextItemId := 2 } := by
      unfold fetch_insert_entry insert_entry insert_item
      rw [if_neg (by rintro ⟨r, hr, -⟩; cases hr)]
      rfl
    rw [hstep1]
    have hconf : itemInsertConflict
        { emptyDB with
          items := [⟨1, url, e1.guid, uid_fetch hash e1, e1.title, e1.link, e1.summary,
            e1.content, (if e1.published_ts = 0 then now else e1.published_ts), now,
            false, false, false, 0, 0⟩],
          nextItemId := 2 } url e2.guid (uid_fetch hash e2) := by
      refine ⟨_, List.mem_singleton_self _, rfl, Or.inr ⟨?_, ?_⟩⟩
      · rw [huid2, huid1]
        intro h
        cases h
      · rw [huid2]
    unfold fetch_insert_entry insert_entry insert_item
    rw [if_pos hconf]
    rfl

/-- Witness for C2 at two concrete entries with the same non-empty link and no
GUIDs: equal dedup keys and a single stored item. -/
theorem c2_dedup_key_stability_witness :
    ((Entry.guid ⟨none, some "a", some "http-x", none, none, 0⟩ =
        Entry.guid ⟨none, some "b", some "http-x", none, none, 0⟩ ∨
      (strTruthy (Entry.guid ⟨none, some "a", some "http-x", none, none, 0⟩) = false ∧
        strTruthy (Entry.guid ⟨none, some "b", some "http-x", none, none, 0⟩) = false)) →
      uid_fetch (fun s => s) ⟨none, some "a", some "http-x", none, none, 0⟩ =
        uid_fetch (fun s => s) ⟨none, some "b", some "http-x", none, none, 0⟩) ∧
    (strTruthy (Entry.guid ⟨none, some "a", some "http-x", none, none, 0⟩) = false →
      strTruthy (Entry.guid ⟨none, some "b", some "http-x", none, none, 0⟩) = false →
      (pyStrip ((Entry.link ⟨none, some "a", some "http-x", none, none, 0⟩).getD "")).data.isEmpty = false →
      ∀ url now, (fetch_batch (fun s => s) url
        [⟨none, some "a", some "http-x", none, none, 0⟩,
          ⟨none, some "b", some "http-x", none, none, 0⟩] now emptyDB).1.items.length = 1) :=
  c2_dedup_key_stability (fun s => s) ⟨none, some "a", some "http-x", none, none, 0⟩
    ⟨none, some "b", some "http-x", none, none, 0⟩ rfl rfl

/-- C7: starred items are protected. A bulk archive-by-date mutates rows only
through `archiveDateUpdate`, which leaves every starred row unchanged (its
deleted flag stays 0) for every combination of date/group/source filters;
`cmd_delete_id` without `--force` refuses a starred item (exit 1, database
untouched), and only with the explicit force flag does it set the deleted
flag. -/
theorem c7_starred_protection :
    (∀ (args : ArchiveDateArgs) (db : DB),
      (cmd_archive_date args db).2.items = db.items ∨
        (cmd_archive_date args db).2.items = db.items.map (archiveDateUpdate args db)) ∧
    (∀ (args : ArchiveDateArgs) (db : DB) (i : ItemRow),
      args.undo = false → i.starred = true → archiveDateUpdate args db i = i) ∧
    (∀ (args : DeleteIdArgs) (db : DB) (iid : Nat) (row : ItemRow),
      _parse_item_id_token args.id = some iid → args.undo = false → args.force = false →
      db.items.find? (fun i => i.id == iid) = some row → row.starred = true →
      cmd_delete_id args db = (1, db)) ∧
    (∀ (args : DeleteIdArgs) (db : DB) (iid : Nat),
      _parse_item_id_token args.id = some iid → args.undo = false → args.force = true →
      cmd_delete_id args db = (0, setDeleted db iid true)) := by
  refine ⟨?_, ?_, ?_, ?_⟩
  · intro args db
    unfold cmd_archive_date
    split
    · exact Or.inl rfl
    · exact Or.inr rfl
  · intro args db i hundo hstar
    unfold archiveDateUpdate
    rw [hundo]
    simp [hstar]
  · intro args db iid row hid hundo hforce hfind hstar
    unfold cmd_delete_id
    rw [hid]
    simp only [hundo, hforce, Bool.not_false, if_true, Bool.false_eq_true, if_false]
    rw [hfind]
    simp [hstar]
  · intro args db iid hid hundo hforce
    unfold cmd_delete_id
    rw [hid]
    simp [hundo, hforce]

/-- Witness for C7: a concrete starred item is untouched by a concrete
archive-by-date, refused by delete without force, and deleted with force. -/
theorem c7_starred_protection_witness :
    (archiveDateUpdate ⟨false, true, some 0, none, none, [], none⟩ emptyDB
      ⟨1, "u", none, none, none, none, none, none, 5, 5, false, true, false, 0, 0⟩ =
      ⟨1, "u", none, none, none, none, none, none, 5, 5, false, true, false, 0, 0⟩) ∧
    (cmd_delete_id ⟨some "1", false, false⟩
      { emptyDB with
        items := [⟨1, "u", none, none, none, none, none, none, 5, 5, false, true, false, 0, 0⟩] } =
      (1, { emptyDB with
        items := [⟨1, "u", none, none, none, none, none, none, 5, 5, false, true, false, 0, 0⟩] })) ∧
    (cmd_delete_id ⟨some "1", false, true⟩
      { emptyDB with
        items := [⟨1, "u", none, none, none, none, none, none, 5, 5, false, true, false, 0, 0⟩] } =
      (0, setDeleted
        { emptyDB with
          items := [⟨1, "u", none, none, none, none, none, none, 5, 5, false, true, false, 0, 0⟩] }
        1 true)) :=
  ⟨c7_starred_protection.2.1 ⟨false, true, some 0, none, none, [], none⟩ emptyDB
      ⟨1, "u", none, none, none, none, none, none, 5, 5, false, true, false, 0, 0⟩ rfl rfl,
    c7_starred_protection.2.2.1 ⟨some "1", false, false⟩
      { emptyDB with
        items := [⟨1, "u", none, none, none, none, none, none, 5, 5, false, true, false, 0, 0⟩] }
      1 ⟨1, "u", none, none, none, none, none, none, 5, 5, false, true, false, 0, 0⟩
      (by decide) rfl rfl (by decide) rfl,
    c7_starred_protection.2.2.2 ⟨some "1", false, true⟩
      { emptyDB with
        items := [⟨1, "u", none, none, none, none, none, none, 5, 5, false, true, false, 0, 0⟩] }
      1 (by decide) rfl rfl⟩

theorem cmd_list_rows_subset {args : ListArgs} {db : DB} {r : ItemRow × FeedRow}
    (h : r ∈ cmd_list_rows args db) :
    r.1 ∈ db.items ∧ listWhere args db r.1 r.2 = true := by
  unfold cmd_list_rows at h
  have hsorted : r ∈ List.insertionSort (listOrder args.published_field)
      ((db.items.flatMap (fun i =>
        (db.feeds.filter (fun f => f.url == i.feed_url)).map (fun f => (i, f)))).filter
          (fun r => listWhere args db r.1 r.2)) := by
    rcases hl : args.limit with - | n
    · rw [hl] at h
      exact h
    · rw [hl] at h
      cases n with
      | zero => exact h
      | succ m => exact List.mem_of_mem_take h
  have hfil := (List.perm_insertionSort _ _).mem_iff.mp hsorted
  have hwhere := List.of_mem_filter hfil
  have hjoin := List.mem_of_mem_filter hfil
  obtain ⟨i, hi, hmap⟩ := List.mem_flatMap.mp hjoin
  obtain ⟨f, -, rfl⟩ := List.mem_map.mp hmap
  exact ⟨hi, hwhere⟩

/-- C8: filter composition in the list query. (a) If the requested tag set
contains two distinct tags that no stored item carries together, the
AND-combined tag filter makes the query return the empty set. (b) With a
non-empty group filter, every returned item belongs to at least one requested
group. -/
theorem c8_filter_composition (args : ListArgs) (db : DB) :
    (∀ t1 t2, t1 ∈ args.tags → t2 ∈ args.tags → t1 ≠ t2 →
      (∀ i ∈ db.items, ¬(hasTagNamed db i.id t1 ∧ hasTagNamed db i.id t2)) →
      cmd_list_ids args db = []) ∧
    (args.group ≠ [] → ∀ idv ∈ cmd_list_ids args db,
      ∃ i ∈ db.items, i.id = idv ∧ ∃ g ∈ args.group, (i.feed_url, g) ∈ db.feedGroups) := by
  constructor
  · intro t1 t2 ht1 ht2 hne hdisj
    have hrows : cmd_list_rows args db = [] := by
      rw [List.eq_nil_iff_forall_not_mem]
      intro r hr
      obtain ⟨hi, hwhere⟩ := cmd_list_rows_subset hr
      have htags : args.tags ≠ [] := fun hnil => by rw [hnil] at ht1; cases ht1
      -- extract the tag clause from the conjunction
      simp only [listWhere, Bool.and_eq_true] at hwhere
      have hclause := hwhere.1.1.1.1.1.1.2
      rw [Bool.or_eq_true] at hclause
      rcases hclause with hemp | hlen
      · rw [List.isEmpty_iff] at hemp
        exact htags hemp
      · rw [decide_eq_true_eq] at hlen
        have hled : args.tags.dedup.length ≤ args.tags.length :=
          (List.dedup_sublist _).length_le

        have hlef : ((args.tags.dedup).filter
            (fun t => decide (hasTagNamed db r.1.id t))).length ≤ args.tags.dedup.length :=
          List.length_filter_le _ _
        have heq : ((args.tags.dedup).filter
            (fun t => decide (hasTagNamed db r.1.id t))) = args.tags.dedup :=
          List.Sublist.eq_of_length (List.filter_sublist _) (by omega)
        have hall : ∀ t ∈ args.tags.dedup, hasTagNamed db r.1.id t := by
          intro t ht
          have : t ∈ ((args.tags.dedup).filter
              (fun t => decide (hasTagNamed db r.1.id t))) := by
            rw [heq]
            exact ht
          simpa using List.of_mem_filter this
        exact hdisj r.1 hi ⟨hall t1 (List.mem_dedup.mpr ht1), hall t2 (List.mem_dedup.mpr ht2)⟩
    unfold cmd_list_ids
    rw [hrows]
    rfl
  · intro hg idv hid
    unfold cmd_list_ids at hid
    obtain ⟨r, hr, rfl⟩ := List.mem_map.mp hid
    obtain ⟨hi, hwhere⟩ := cmd_list_rows_subset hr
    refine ⟨r.1, hi, rfl, ?_⟩
    simp only [listWhere, Bool.and_eq_true] at hwhere
    have hclause := hwhere.1.1.1.1.1.1.1.1.1.2
    rw [Bool.or_eq_true] at hclause
    rcases hclause with hemp | hany
    · rw [List.isEmpty_iff] at hemp
      exact absurd hemp hg
    · rw [List.any_eq_true] at hany
      obtain ⟨g, hgm, hgin⟩ := hany
      exact ⟨g, hgm, by simpa using hgin⟩

/-- Witness for C8 on a concrete one-item store: requesting the two disjoint
tags "a" and "b" returns no items, and with a group filter every returned id
belongs to a requested group. -/
theorem c8_filter_composition_witness :
    (cmd_list_ids ⟨[], [], none, ["a", "b"], false, false, false, none, true,
        none, none, none, none, none⟩
      { emptyDB with
        feeds := [⟨"u", "g", none, none, false, 0⟩],
        feedGroups := [("u", "g")],
        items := [⟨1, "u", none, none, none, none, none, none, 5, 5, false, false, false, 0, 0⟩],
        tags := [⟨1, "a"⟩],
        itemTags := [(1, 1)] } = []) ∧
    (∀ idv ∈ cmd_list_ids ⟨["g"], [], none, [], false, false, false, none, true,
        none, none, none, none, none⟩
      { emptyDB with
        feeds := [⟨"u", "g", none, none, false, 0⟩],
        feedGroups := [("u", "g")],
        items := [⟨1, "u", none, none, none, none, none, none, 5, 5, false, false, false, 0, 0⟩],
        tags := [⟨1, "a"⟩],
        itemTags := [(1, 1)] },
      ∃ i ∈ ({ emptyDB with
        feeds := [⟨"u", "g", none, none, false, 0⟩],
        feedGroups := [("u", "g")],
        items := [⟨1, "u", none, none, none, none, none, none, 5, 5, false, false, false, 0, 0⟩],
        tags := [⟨1, "a"⟩],
        itemTags := [(1, 1)] } : DB).items, i.id = idv ∧
          ∃ g ∈ ["g"], (i.feed_url, g) ∈ ({ emptyDB with
            feeds := [⟨"u", "g", none, none, false, 0⟩],
            feedGroups := [("u", "g")],
            items := [⟨1, "u", none, none, none, none, none, none, 5, 5, false, false, false, 0, 0⟩],
            tags := [⟨1, "a"⟩],
            itemTags := [(1, 1)] } : DB).feedGroups) :=
  ⟨(c8_filter_composition _ _).1 "a" "b" (by decide) (by decide) (by decide)
      (by decide),
    (c8_filter_composition _ _).2 (by decide)⟩

/-! ### Frame lemmas: which tables each primitive leaves untouched -/

theorem foldl_proj {σ α β : Type} (p : σ → β) (f : σ → α → σ)
    (hf : ∀ d x, p (f d x) = p d) :
    ∀ (l : List α) (d : σ), p (l.foldl f d) = p d
  | [], _ => rfl
  | x :: xs, d => by rw [List.foldl_cons, foldl_proj p f hf xs, hf]

theorem insert_item_feeds (db : DB) (f : String) (g u t l s c : Option String)
    (p cr : Nat) : (insert_item db f g u t l s c p cr).feeds = db.feeds := by
  unfold insert_item
  split <;> rfl

theorem insert_item_feedGroups (db : DB) (f : String) (g u t l s c : Option String)
    (p cr : Nat) : (insert_item db f g u t l s c p cr).feedGroups = db.feedGroups := by
  unfold insert_item
  split <;> rfl

theorem sync_batch_fst (hash : String → String) (url : String) (entries : List Entry)
    (now : Nat) (db : DB) :
    (sync_batch hash url entries now db).1 =
      entries.foldl (sync_insert_entry hash url now) db := rfl

theorem sync_batch_snd (hash : String → String) (url : String) (entries : List Entry)
    (now : Nat) (db : DB) :
    (sync_batch hash url entries now db).2 =
      countFeedItems (entries.foldl (sync_insert_entry hash url now) db) url -
        countFeedItems db url := rfl

theorem upsert_tag_feeds (db : DB) (n : String) :
    (upsert_tag db n).1.feeds = db.feeds := by
  simp only [upsert_tag]
  split
  · rfl
  · split <;> rfl

theorem upsert_tag_items (db : DB) (n : String) :
    (upsert_tag db n).1.items = db.items := by
  simp only [upsert_tag]
  split
  · rfl
  · split <;> rfl

theorem replaceStep_feeds (iid : Nat) (d : DB) (n : String) :
    (replaceStep iid d n).feeds = d.feeds := by
  simp only [replaceStep]
  cases h : (upsert_tag d n).2 with
  | none =>
    simp only [h]
    exact upsert_tag_feeds d n
  | some tid =>
    simp only [h]
    split
    · exact upsert_tag_feeds d n
    · exact upsert_tag_feeds d n

theorem replaceStep_items (iid : Nat) (d : DB) (n : String) :
    (replaceStep iid d n).items = d.items := by
  simp only [replaceStep]
  cases h : (upsert_tag d n).2 with
  | none =>
    simp only [h]
    exact upsert_tag_items d n
  | some tid =>
    simp only [h]
    split
    · exact upsert_tag_items d n
    · exact upsert_tag_items d n

theorem replace_item_tags_feeds (db : DB) (iid : Nat) (ns : List String) :
    (replace_item_tags db iid ns).feeds = db.feeds := by
  unfold replace_item_tags
  rw [foldl_proj DB.feeds (replaceStep iid) (replaceStep_feeds iid)]

theorem replace_item_tags_items (db : DB) (iid : Nat) (ns : List String) :
    (replace_item_tags db iid ns).items = db.items := by
  unfold replace_item_tags
  rw [foldl_proj DB.items (replaceStep iid) (replaceStep_items iid)]

theorem insert_feed_group_feeds (d : DB) (url g : String) :
    (insert_feed_group d url g).feeds = d.feeds := by
  unfold insert_feed_group
  split <;> rfl

theorem insert_feed_group_items (d : DB) (url g : String) :
    (insert_feed_group d url g).items = d.items := by
  unfold insert_feed_group
  split <;> rfl

theorem upsert_feed_row_items (db : DB) (url primary : String)
    (title : Option String) (tier : String) :
    (upsert_feed_row db url primary title tier).items = db.items := by
  unfold upsert_feed_row
  split <;> rfl

/-! ### The generic per-item insert fold (shared by the fetch and sync loops) -/

theorem mem_items_insert_fold (uidf : Entry → Option String) (url : String) (now : Nat) :
    ∀ (entries : List Entry) {db : DB} {r : ItemRow}, r ∈ db.items →
      r ∈ (entries.foldl (insert_entry uidf url now) db).items
  | [], _, _, h => h
  | e :: rest, db, r, h => by
    simp only [List.foldl_cons]
    exact mem_items_insert_fold uidf url now rest
      (mem_items_insert_item h url e.guid (uidf e) e.title e.link e.summary
        e.content _ now)

theorem conflicts_after_insert_fold (uidf : Entry → Option String) (url : String)
    (now : Nat) :
    ∀ (entries : List Entry) (db : DB) (e : Entry), e ∈ entries → uidf e ≠ none →
      itemInsertConflict (entries.foldl (insert_entry uidf url now) db) url
        e.guid (uidf e)
  | [], _, e, he, _ => absurd he (List.not_mem_nil e)
  | e0 :: rest, db, e, he, hu => by
    simp only [List.foldl_cons]
    rcases List.mem_cons.mp he with rfl | hm
    · have hconf : itemInsertConflict (insert_entry uidf url now db e) url
          e.guid (uidf e) := by
        unfold insert_entry insert_item
        by_cases hc : itemInsertConflict db url e.guid (uidf e)
        · rw [if_pos hc]
          exact hc
        · rw [if_neg hc]
          refine ⟨⟨db.nextItemId, url, e.guid, uidf e, e.title, e.link,
            e.summary, e.content, (if e.published_ts = 0 then now else e.published_ts),
            now, false, false, false, 0, 0⟩,
            by simp, rfl, Or.inr ⟨hu, rfl⟩⟩
      exact conflict_mono (fun r hr => mem_items_insert_fold uidf url now rest hr) hconf
    · exact conflicts_after_insert_fold uidf url now rest
        (insert_entry uidf url now db e0) e hm hu

theorem insert_fold_noop (uidf : Entry → Option String) (url : String) (now : Nat) :
    ∀ (entries : List Entry) (db : DB),
      (∀ e ∈ entries, itemInsertConflict db url e.guid (uidf e)) →
      entries.foldl (insert_entry uidf url now) db = db
  | [], _, _ => rfl
  | e :: rest, db, h => by
    simp only [List.foldl_cons]
    have hstep : insert_entry uidf url now db e = db := by
      unfold insert_entry insert_item
      rw [if_pos (h e (List.mem_cons_self e rest))]
    rw [hstep]
    exact insert_fold_noop uidf url now rest db
      (fun e' he' => h e' (List.mem_cons_of_mem _ he'))

theorem insert_fold_feeds (uidf : Entry → Option String) (url : String) (now : Nat)
    (entries : List Entry) (db : DB) :
    (entries.foldl (insert_entry uidf url now) db).feeds = db.feeds :=
  foldl_proj DB.feeds (insert_entry uidf url now)
    (fun d e => insert_item_feeds d url e.guid (uidf e) e.title e.link e.summary
      e.content _ now) entries db

/-! ### The sync fetch stage -/

theorem syncFetchStage_feeds (hash : String → String)
    (fetched : String → Option (List Entry)) (now : Nat) :
    ∀ (urls : List String) (db : DB),
      (syncFetchStage hash fetched now urls db).1.feeds = db.feeds
  | [], _ => rfl
  | u :: rest, db => by
    cases hc : fetched u with
    | none =>
      simp only [syncFetchStage, hc]
      exact syncFetchStage_feeds hash fetched now rest db
    | some es =>
      simp only [syncFetchStage, hc]
      rw [syncFetchStage_feeds hash fetched now rest, sync_batch_fst]
      exact insert_fold_feeds (uid_sync hash) u now es db

theorem syncFetchStage_items_mono (hash : String → String)
    (fetched : String → Option (List Entry)) (now : Nat) :
    ∀ (urls : List String) {db : DB} {r : ItemRow}, r ∈ db.items →
      r ∈ (syncFetchStage hash fetched now urls db).1.items
  | [], _, _, h => h
  | u :: rest, db, r, h => by
    cases hc : fetched u with
    | none =>
      simp only [syncFetchStage, hc]
      exact syncFetchStage_items_mono hash fetched now rest h
    | some es =>
      simp only [syncFetchStage, hc]
      exact syncFetchStage_items_mono hash fetched now rest
        (mem_items_insert_fold (uid_sync hash) u now es h)

theorem syncFetchStage_conflicts (hash : String → String)
    (fetched : String → Option (List Entry)) (now : Nat) :
    ∀ (urls : List String) (db : DB) (url : String) (es : List Entry) (e : Entry),
      url ∈ urls → fetched url = some es → e ∈ es → uid_sync hash e ≠ none →
      itemInsertConflict (syncFetchStage hash fetched now urls db).1 url
        e.guid (uid_sync hash e)
  | [], _, _, _, _, hmem, _, _, _ => absurd hmem (List.not_mem_nil _)
  | u :: rest, db, url, es, e, hmem, hf, he, hu => by
    rcases List.mem_cons.mp hmem with rfl | hm
    · simp only [syncFetchStage, hf]
      have hbatch : itemInsertConflict
          (es.foldl (sync_insert_entry hash url now) db) url
          e.guid (uid_sync hash e) :=
        conflicts_after_insert_fold (uid_sync hash) url now es db e he hu
      exact conflict_mono
        (fun r hr => syncFetchStage_items_mono hash fetched now rest hr) hbatch
    · cases hc : fetched u with
      | none =>
        simp only [syncFetchStage, hc]
        exact syncFetchStage_conflicts hash fetched now rest db url es e hm hf he hu
      | some es0 =>
        simp only [syncFetchStage, hc]
        exact syncFetchStage_conflicts hash fetched now rest
          (sync_batch hash u es0 now db).1 url es e hm hf he hu

theorem syncFetchStage_noop (hash : String → String)
    (fetched : String → Option (List Entry)) (now : Nat) :
    ∀ (urls : List String) (db : DB),
      (∀ url es e, url ∈ urls → fetched url = some es → e ∈ es →
        itemInsertConflict db url e.guid (uid_sync hash e)) →
      syncFetchStage hash fetched now urls db = (db, 0, urls)
  | [], _, _ => rfl
  | u :: rest, db, h => by
    cases hc : fetched u with
    | none =>
      simp only [syncFetchStage, hc]
      rw [syncFetchStage_noop hash fetched now rest db
        (fun url es e hm hf he => h url es e (List.mem_cons_of_mem _ hm) hf he)]
    | some es =>
      have hfold : es.foldl (sync_insert_entry hash u now) db = db :=
        insert_fold_noop (uid_sync hash) u now es db
          (fun e he => h u es e (List.mem_cons_self u rest) hc he)
      have hrest := syncFetchStage_noop hash fetched now rest db
        (fun url es e hm hf he => h url es e (List.mem_cons_of_mem _ hm) hf he)
      simp only [syncFetchStage, hc, sync_batch_fst, sync_batch_snd, hfold, hrest,
        Nat.sub_self]

/-! ### Facts about `upsert_feeds` -/

theorem upsert_feeds_step_items (g : Option String) (db : DB) (e : SourceEntry) :
    (upsert_feeds_step g db e).items = db.items := by
  simp only [upsert_feeds_step]
  split
  · rfl
  · split
    · rfl
    · have hfold : ∀ (gs : List String) (d : DB),
          (gs.foldl (fun d gr =>
            if strTruthy g ∧ gr ≠ g.getD "" then d
            else insert_feed_group d (e.url.getD "") gr) d).items = d.items := by
        intro gs d
        refine foldl_proj DB.items _ (fun d gr => ?_) gs d
        split
        · rfl
        · exact insert_feed_group_items d (e.url.getD "") gr
      split
      · rw [hfold, upsert_feed_row_items]
      · dsimp only
        rw [hfold, upsert_feed_row_items]

theorem upsert_feeds_items (g : Option String) (sources : List SourceEntry) (db : DB) :
    (upsert_feeds db sources g).items = db.items :=
  foldl_proj DB.items (upsert_feeds_step g) (upsert_feeds_step_items g) sources db

theorem feedKeys_upsert_feed_row {db : DB} {url : String} (h : url ∈ feedUrls db)
    (primary : String) (title : Option String) (tier : String) :
    feedKeys (upsert_feed_row db url primary title tier) = feedKeys db := by
  obtain ⟨f, hf, hfu⟩ := List.mem_map.mp h
  unfold upsert_feed_row
  have hany : (db.feeds.any fun x => x.url == url) = true :=
    List.any_eq_true.mpr ⟨f, hf, beq_iff_eq.mpr hfu⟩
  rw [if_pos hany]
  unfold feedKeys
  simp only [List.map_map]
  refine List.map_congr_left (fun x _ => ?_)
  simp only [Function.comp]
  split <;> rfl

theorem feedUrls_eq_of_feedKeys {d1 d2 : DB} (h : feedKeys d1 = feedKeys d2) :
    feedUrls d1 = feedUrls d2 := by
  have hk : ∀ d : DB, feedUrls d = (feedKeys d).map Prod.fst := by
    intro d
    unfold feedUrls feedKeys
    rw [List.map_map]
    rfl
  rw [hk, hk, h]

theorem feedUrls_upsert_feed_row {db : DB} {url : String} (h : url ∈ feedUrls db)
    (primary : String) (title : Option String) (tier : String) :
    feedUrls (upsert_feed_row db url primary title tier) = feedUrls db :=
  feedUrls_eq_of_feedKeys (feedKeys_upsert_feed_row h primary title tier)

theorem upsert_feed_row_mem_url (db : DB) (url primary : String)
    (title : Option String) (tier : String) :
    url ∈ feedUrls (upsert_feed_row db url primary title tier) := by
  by_cases h : url ∈ feedUrls db
  · rw [feedUrls_upsert_feed_row h]
    exact h
  · unfold upsert_feed_row
    rw [if_neg ?hmem]
    case hmem =>
      intro hany
      obtain ⟨f, hf, hfu⟩ := List.any_eq_true.mp hany
      exact h (List.mem_map.mpr ⟨f, hf, beq_iff_eq.mp hfu⟩)
    unfold feedUrls
    simp

theorem upsert_feeds_step_grpFold_feeds (g : Option String) (url : String)
    (gs : List String) (d : DB) :
    (gs.foldl (fun d gr =>
      if strTruthy g ∧ gr ≠ g.getD "" then d else insert_feed_group d url gr) d).feeds
      = d.feeds := by
  refine foldl_proj DB.feeds _ (fun d gr => ?_) gs d
  split
  · rfl
  · exact insert_feed_group_feeds d url gr

theorem feedKeys_upsert_feeds_step {g : Option String} {db : DB} {e : SourceEntry}
    (h : strTruthy e.url = true → (e.url.getD "") ∈ feedUrls db) :
    feedKeys (upsert_feeds_step g db e) = feedKeys db := by
  simp only [upsert_feeds_step]
  split
  · rfl
  · rename_i htr
    simp only [Bool.not_eq_true, Bool.not_eq_false'] at htr
    split
    · rfl
    · have hkeys : ∀ d' : DB, d'.feeds = (upsert_feed_row db (e.url.getD "")
          (e.groups.headD "ungrouped")
          e.title (if strTruthy e.tier = true then e.tier.getD "" else "3")).feeds →
          feedKeys d' = feedKeys db := by
        intro d' hd'
        have : feedKeys d' = feedKeys (upsert_feed_row db (e.url.getD "")
            (e.groups.headD "ungrouped") e.title
            (if strTruthy e.tier = true then e.tier.getD "" else "3")) := by
          unfold feedKeys
          rw [hd']
        rw [this, feedKeys_upsert_feed_row (h htr)]
      split
      · exact hkeys _ (upsert_feeds_step_grpFold_feeds g (e.url.getD "") _ _)
      · exact hkeys _ (upsert_feeds_step_grpFold_feeds g (e.url.getD "") _ _)

theorem feedUrls_upsert_feeds_step_mono {g : Option String} {db : DB}
    {e : SourceEntry} {u : String} (h : u ∈ feedUrls db) :
    u ∈ feedUrls (upsert_feeds_step g db e) := by
  simp only [upsert_feeds_step]
  split
  · exact h
  · split
    · exact h
    · have hurls : ∀ d' : DB, d'.feeds = (upsert_feed_row db (e.url.getD "")
          (e.groups.headD "ungrouped") e.title
          (if strTruthy e.tier = true then e.tier.getD "" else "3")).feeds →
          u ∈ feedUrls d' := by
        intro d' hd'
        have hfu : feedUrls d' = feedUrls (upsert_feed_row db (e.url.getD "")
            (e.groups.headD "ungrouped") e.title
            (if strTruthy e.tier = true then e.tier.getD "" else "3")) := by
          unfold feedUrls
          rw [hd']
        rw [hfu]
        by_cases hm : (e.url.getD "") ∈ feedUrls db
        · rw [feedUrls_upsert_feed_row hm]
          exact h
        · unfold upsert_feed_row
          rw [if_neg ?hmem]
          case hmem =>
            intro hany
            obtain ⟨f, hf, hfu'⟩ := List.any_eq_true.mp hany
            exact hm (List.mem_map.mpr ⟨f, hf, beq_iff_eq.mp hfu'⟩)
          unfold feedUrls at h ⊢
          simp only [List.map_append]
          exact List.mem_append.mpr (Or.inl h)
      split
      · exact hurls _ (upsert_feeds_step_grpFold_feeds g (e.url.getD "") _ _)
      · exact hurls _ (upsert_feeds_step_grpFold_feeds g (e.url.getD "") _ _)

theorem feedUrls_upsert_feeds_mono {g : Option String} :
    ∀ (sources : List SourceEntry) {db : DB} {u : String}, u ∈ feedUrls db →
      u ∈ feedUrls (upsert_feeds db sources g)
  | [], _, _, h => h
  | e :: rest, db, u, h => by
    simp only [upsert_feeds, List.foldl_cons]
    exact feedUrls_upsert_feeds_mono rest (feedUrls_upsert_feeds_step_mono h)

theorem feedKeys_upsert_feeds {g : Option String} :
    ∀ (sources : List SourceEntry) (db : DB),
      (∀ e ∈ sources, strTruthy e.url = true → (e.url.getD "") ∈ feedUrls db) →
      feedKeys (upsert_feeds db sources g) = feedKeys db
  | [], _, _ => rfl
  | e :: rest, db, h => by
    simp only [upsert_feeds, List.foldl_cons]
    have hstep : feedKeys (upsert_feeds_step g db e) = feedKeys db :=
      feedKeys_upsert_feeds_step (h e (List.mem_cons_self e rest))
    have hrest : feedKeys (upsert_feeds (upsert_feeds_step g db e) rest g) =
        feedKeys (upsert_feeds_step g db e) := by
      refine feedKeys_upsert_feeds rest _ (fun e' he' ht => ?_)
      have : (e'.url.getD "") ∈ feedUrls db := h e' (List.mem_cons_of_mem _ he') ht
      rw [feedUrls_eq_of_feedKeys hstep]
      exact this
    exact hrest.trans hstep

theorem upsert_feeds_step_adds_url {db : DB} {e : SourceEntry}
    (he : strTruthy e.url = true) :
    (e.url.getD "") ∈ feedUrls (upsert_feeds_step none db e) := by
  simp only [upsert_feeds_step, he, Bool.not_true]
  rw [if_neg (by simp)]
  rw [if_neg (by simp [strTruthy])]
  have hurls : ∀ d' : DB, d'.feeds = (upsert_feed_row db (e.url.getD "")
      (e.groups.headD "ungrouped") e.title
      (if strTruthy e.tier = true then e.tier.getD "" else "3")).feeds →
      (e.url.getD "") ∈ feedUrls d' := by
    intro d' hd'
    have hfu : feedUrls d' = feedUrls (upsert_feed_row db (e.url.getD "")
        (e.groups.headD "ungrouped") e.title
        (if strTruthy e.tier = true then e.tier.getD "" else "3")) := by
      unfold feedUrls
      rw [hd']
    rw [hfu]
    exact upsert_feed_row_mem_url db _ _ _ _
  split
  · exact hurls _ (upsert_feeds_step_grpFold_feeds none (e.url.getD "") _ _)
  · exact hurls _ (upsert_feeds_step_grpFold_feeds none (e.url.getD "") _ _)

theorem upsert_feeds_adds_urls :
    ∀ (sources : List SourceEntry) (db : DB) (e : SourceEntry), e ∈ sources →
      strTruthy e.url = true →
      (e.url.getD "") ∈ feedUrls (upsert_feeds db sources none)
  | [], _, _, hmem, _ => absurd hmem (List.not_mem_nil _)
  | e0 :: rest, db, e, hmem, ht => by
    simp only [upsert_feeds, List.foldl_cons]
    rcases List.mem_cons.mp hmem with rfl | hm
    · exact feedUrls_upsert_feeds_mono rest (upsert_feeds_step_adds_url ht)
    · exact upsert_feeds_adds_urls rest (upsert_feeds_step none db e0) e hm ht

/-! ### Net effect of the tag and export stages on the item store -/

theorem markTagged_nil (now : Nat) (i : ItemRow) : markTagged now [] i = i := by
  unfold markTagged
  rw [if_neg (List.not_mem_nil i.id)]

theorem markExported_nil (now : Nat) (i : ItemRow) : markExported now [] i = i := by
  unfold markExported
  rw [if_neg (List.not_mem_nil i.id)]

theorem markTagged_stampTagged (now rid : Nat) (ids : List Nat) (i : ItemRow) :
    markTagged now ids (stampTagged now rid i) = markTagged now (rid :: ids) i := by
  by_cases h : i.id = rid <;>
    simp [markTagged, stampTagged, h, List.mem_cons]

theorem markExported_stampExported (now rid : Nat) (ids : List Nat) (i : ItemRow) :
    markExported now ids (stampExported now rid i) = markExported now (rid :: ids) i := by
  by_cases h : i.id = rid <;>
    simp [markExported, stampExported, h, List.mem_cons]

theorem tagStep_snd (h2t : Option String → String) (hostOf : String → Option String)
    (stop : List String) (mt : Nat) (incl : Bool) (now : Nat)
    (acc : DB × Nat) (row : ItemRow) :
    (tagStep h2t hostOf stop mt incl now acc row).2 = acc.2 + 1 := rfl

theorem tagStep_items (h2t : Option String → String) (hostOf : String → Option String)
    (stop : List String) (mt : Nat) (incl : Bool) (now : Nat)
    (acc : DB × Nat) (row : ItemRow) :
    (tagStep h2t hostOf stop mt incl now acc row).1.items =
      acc.1.items.map (stampTagged now row.id) := by
  simp only [tagStep]
  rw [replace_item_tags_items]

theorem tagStep_feeds (h2t : Option String → String) (hostOf : String → Option String)
    (stop : List String) (mt : Nat) (incl : Bool) (now : Nat)
    (acc : DB × Nat) (row : ItemRow) :
    (tagStep h2t hostOf stop mt incl now acc row).1.feeds = acc.1.feeds := by
  simp only [tagStep]
  rw [replace_item_tags_feeds]

theorem exportStep_snd (now : Nat) (acc : DB × Nat) (row : ItemRow) :
    (exportStep now acc row).2 = acc.2 + 1 := rfl

theorem exportStep_items (now : Nat) (acc : DB × Nat) (row : ItemRow) :
    (exportStep now acc row).1.items = acc.1.items.map (stampExported now row.id) := rfl

theorem exportStep_feeds (now : Nat) (acc : DB × Nat) (row : ItemRow) :
    (exportStep now acc row).1.feeds = acc.1.feeds := rfl

theorem tagFold_spec (h2t : Option String → String) (hostOf : String → Option String)
    (stop : List String) (mt : Nat) (incl : Bool) (now : Nat) :
    ∀ (rows : List ItemRow) (acc : DB × Nat),
      (rows.foldl (tagStep h2t hostOf stop mt incl now) acc).2 = acc.2 + rows.length ∧
      (rows.foldl (tagStep h2t hostOf stop mt incl now) acc).1.items =
        acc.1.items.map (markTagged now (rows.map ItemRow.id)) ∧
      (rows.foldl (tagStep h2t hostOf stop mt incl now) acc).1.feeds = acc.1.feeds
  | [], acc => by
    refine ⟨rfl, ?_, rfl⟩
    have hid : markTagged now (([] : List ItemRow).map ItemRow.id) = id :=
      funext (markTagged_nil now)
    rw [hid, List.map_id]
    rfl
  | row :: rest, acc => by
    obtain ⟨h2, h3, h4⟩ := tagFold_spec h2t hostOf stop mt incl now rest
      (tagStep h2t hostOf stop mt incl now acc row)
    refine ⟨?_, ?_, ?_⟩
    · simp only [List.foldl_cons, List.length_cons]
      rw [h2, tagStep_snd]
      omega
    · simp only [List.foldl_cons, List.map_cons]
      rw [h3, tagStep_items, List.map_map]
      refine List.map_congr_left (fun i _ => ?_)
      simp only [Function.comp]
      exact markTagged_stampTagged now row.id (rest.map ItemRow.id) i
    · simp only [List.foldl_cons]
      rw [h4, tagStep_feeds]

theorem exportFold_spec (now : Nat) :
    ∀ (rows : List ItemRow) (acc : DB × Nat),
      (rows.foldl (exportStep now) acc).2 = acc.2 + rows.length ∧
      (rows.foldl (exportStep now) acc).1.items =
        acc.1.items.map (markExported now (rows.map ItemRow.id)) ∧
      (rows.foldl (exportStep now) acc).1.feeds = acc.1.feeds
  | [], acc => by
    refine ⟨rfl, ?_, rfl⟩
    have hid : markExported now (([] : List ItemRow).map ItemRow.id) = id :=
      funext (markExported_nil now)
    rw [hid, List.map_id]
    rfl
  | row :: rest, acc => by
    obtain ⟨h2, h3, h4⟩ := exportFold_spec now rest (exportStep now acc row)
    refine ⟨?_, ?_, ?_⟩
    · simp only [List.foldl_cons, List.length_cons]
      rw [h2, exportStep_snd]
      omega
    · simp only [List.foldl_cons, List.map_cons]
      rw [h3, exportStep_items, List.map_map]
      refine List.map_congr_left (fun i _ => ?_)
      simp only [Function.comp]
      exact markExported_stampExported now row.id (rest.map ItemRow.id) i
    · simp only [List.foldl_cons]
      rw [h4, exportStep_feeds]

theorem tagStage_spec (h2t : Option String → String) (hostOf : String → Option String)
    (stop : List String) (mt : Nat) (incl : Bool) (group : List String)
    (retag : Bool) (now : Nat) (db : DB) :
    (tagStage h2t hostOf stop mt incl group retag now db).2 =
        (tagSelect db group retag).length ∧
      (tagStage h2t hostOf stop mt incl group retag now db).1.items =
        db.items.map (markTagged now ((tagSelect db group retag).map ItemRow.id)) ∧
      (tagStage h2t hostOf stop mt incl group retag now db).1.feeds = db.feeds := by
  have h := tagFold_spec h2t hostOf stop mt incl now (tagSelect db group retag) (db, 0)
  simpa [tagStage] using h

theorem exportStage_spec (group : List String) (u : Bool) (limit : Option Nat)
    (all : Bool) (now : Nat) (db : DB) :
    (exportStage group u limit all now db).2 =
        (iter_items db group u limit (!all)).length ∧
      (exportStage group u limit all now db).1.items =
        db.items.map (markExported now
          ((iter_items db group u limit (!all)).map ItemRow.id)) ∧
      (exportStage group u limit all now db).1.feeds = db.feeds := by
  have h := exportFold_spec now (iter_items db group u limit (!all)) (db, 0)
  simpa [exportStage] using h

/-! ### The default feed selection is determined by the (url, archived) keys -/

theorem feedExistsB_iff_mem (db : DB) (u : String) :
    feedExistsB db u = true ↔ u ∈ feedUrls db := by
  unfold feedExistsB feedUrls
  rw [List.any_eq_true]
  constructor
  · rintro ⟨f, hf, hfu⟩
    exact List.mem_map.mpr ⟨f, hf, beq_iff_eq.mp hfu⟩
  · rintro h
    obtain ⟨f, hf, hfu⟩ := List.mem_map.mp h
    exact ⟨f, hf, beq_iff_eq.mpr hfu⟩

theorem feedExistsB_eq_of_urls {d1 d2 : DB} (h : feedUrls d1 = feedUrls d2)
    (u : String) : feedExistsB d1 u = feedExistsB d2 u := by
  rw [Bool.eq_iff_iff, feedExistsB_iff_mem, feedExistsB_iff_mem, h]

theorem selectSyncFeeds_nil (db : DB) :
    selectSyncFeeds db [] = (db.feeds.filter (fun f => !f.archived)).map FeedRow.url := by
  simp [selectSyncFeeds]

theorem filter_unarchived_keys (l : List FeedRow) :
    (l.filter (fun f => !f.archived)).map FeedRow.url =
      ((l.map (fun f => (f.url, f.archived))).filter (fun p => !p.2)).map Prod.fst := by
  induction l with
  | nil => rfl
  | cons f t ih => cases hf : f.archived <;> simp [List.filter_cons, hf, ih]

theorem selectSyncFeeds_nil_eq_of_keys {d1 d2 : DB} (h : feedKeys d1 = feedKeys d2) :
    selectSyncFeeds d1 [] = selectSyncFeeds d2 [] := by
  rw [selectSyncFeeds_nil, selectSyncFeeds_nil, filter_unarchived_keys,
    filter_unarchived_keys]
  unfold feedKeys at h
  rw [h]

/-! ### Conflict transfer along the pipeline -/

theorem dedupSubL_refl (l : List ItemRow) : dedupSubL l l :=
  fun r hr => ⟨r, hr, rfl, rfl, rfl⟩

theorem dedupSubL_trans {l1 l2 l3 : List ItemRow} (h12 : dedupSubL l1 l2)
    (h23 : dedupSubL l2 l3) : dedupSubL l1 l3 := by
  intro r hr
  obtain ⟨r', hr', e1, e2, e3⟩ := h12 r hr
  obtain ⟨r'', hr'', g1, g2, g3⟩ := h23 r' hr'
  exact ⟨r'', hr'', g1.trans e1, g2.trans e2, g3.trans e3⟩

theorem dedupSubL_map_markTagged (now : Nat) (ids : List Nat) (l : List ItemRow) :
    dedupSubL l (l.map (markTagged now ids)) := by
  intro r hr
  refine ⟨markTagged now ids r, List.mem_map_of_mem _ hr, ?_, ?_, ?_⟩ <;>
    (unfold markTagged; split <;> rfl)

theorem dedupSubL_map_markExported (now : Nat) (ids : List Nat) (l : List ItemRow) :
    dedupSubL l (l.map (markExported now ids)) := by
  intro r hr
  refine ⟨markExported now ids r, List.mem_map_of_mem _ hr, ?_, ?_, ?_⟩ <;>
    (unfold markExported; split <;> rfl)

theorem conflict_of_dedupSubL {db db' : DB} {f : String} {g u : Option String}
    (hs : dedupSubL db.items db'.items) (h : itemInsertConflict db f g u) :
    itemInsertConflict db' f g u := by
  obtain ⟨r, hr, hfu, hrest⟩ := h
  obtain ⟨r', hr', e1, e2, e3⟩ := hs r hr
  refine ⟨r', hr', e1.trans hfu, ?_⟩
  rcases hrest with ⟨hg, hgr⟩ | ⟨hu, hur⟩
  · exact Or.inl ⟨hg, e2.trans hgr⟩
  · exact Or.inr ⟨hu, e3.trans hur⟩

/-! ### After a default run, nothing is selected again -/

theorem tagCond_nil_false_iff (db : DB) (i : ItemRow) :
    tagCond db [] false i = true ↔
      (i.deleted = false ∧ i.auto_tagged_ts = 0 ∧ feedExistsB db i.feed_url = true) := by
  simp [tagCond, and_assoc]

theorem iterCond_default_iff (db : DB) (i : ItemRow) :
    iterCond db [] false true i = true ↔
      (i.deleted = false ∧ i.fs_exported_ts = 0 ∧ feedExistsB db i.feed_url = true) := by
  simp [iterCond, and_assoc]

theorem tagSelect_nil_of_cond (db : DB)
    (h : ∀ i ∈ db.items, ¬(tagCond db [] false i = true)) :
    tagSelect db [] false = [] := by
  unfold tagSelect
  rw [List.filter_eq_nil_iff.mpr h]
  rfl

theorem iter_items_nil_of_cond (db : DB)
    (h : ∀ i ∈ db.items, ¬(iterCond db [] false true i = true)) :
    iter_items db [] false none true = [] := by
  show List.insertionSort itemOrder (db.items.filter (iterCond db [] false true)) = []
  rw [List.filter_eq_nil_iff.mpr h]
  rfl

theorem tagCond_false_of_not_selected {db : DB} {i : ItemRow}
    (h : i.id ∉ (tagSelect db [] false).map ItemRow.id) (hi : i ∈ db.items) :
    tagCond db [] false i = false := by
  by_contra hc
  rw [Bool.not_eq_false] at hc
  refine h (List.mem_map_of_mem _ ?_)
  show i ∈ List.insertionSort itemOrder (db.items.filter (tagCond db [] false))
  exact (List.Perm.mem_iff (List.perm_insertionSort itemOrder _)).mpr
    (List.mem_filter.mpr ⟨hi, hc⟩)

theorem iterCond_false_of_not_selected {db : DB} {i : ItemRow}
    (h : i.id ∉ (iter_items db [] false none true).map ItemRow.id) (hi : i ∈ db.items) :
    iterCond db [] false true i = false := by
  by_contra hc
  rw [Bool.not_eq_false] at hc
  refine h (List.mem_map_of_mem _ ?_)
  show i ∈ List.insertionSort itemOrder (db.items.filter (iterCond db [] false true))
  exact (List.Perm.mem_iff (List.perm_insertionSort itemOrder _)).mpr
    (List.mem_filter.mpr ⟨hi, hc⟩)

theorem tagSelect_empty_after {dbPrev dbNew : DB} {now : Nat} (hn : now ≠ 0)
    (em : ItemRow → ItemRow)
    (hem : ∀ x, (em x).deleted = x.deleted ∧ (em x).auto_tagged_ts = x.auto_tagged_ts ∧
      (em x).feed_url = x.feed_url)
    (hitems : dbNew.items =
      (dbPrev.items.map
        (markTagged now ((tagSelect dbPrev [] false).map ItemRow.id))).map em)
    (hfe : ∀ u, feedExistsB dbNew u = feedExistsB dbPrev u) :
    tagSelect dbNew [] false = [] := by
  apply tagSelect_nil_of_cond
  intro i hi hcond
  rw [hitems] at hi
  obtain ⟨j, hj, rfl⟩ := List.mem_map.mp hi
  obtain ⟨i0, hi0, rfl⟩ := List.mem_map.mp hj
  obtain ⟨hd, ha, hf⟩ :=
    hem (markTagged now ((tagSelect dbPrev [] false).map ItemRow.id) i0)
  obtain ⟨hc1, hc2, hc3⟩ := (tagCond_nil_false_iff dbNew _).mp hcond
  by_cases hid : i0.id ∈ (tagSelect dbPrev [] false).map ItemRow.id
  · have hstamp : (markTagged now ((tagSelect dbPrev [] false).map ItemRow.id)
        i0).auto_tagged_ts = now := by
      unfold markTagged
      rw [if_pos hid]
    exact hn (hstamp.symm.trans (ha.symm.trans hc2))
  · have hmt : markTagged now ((tagSelect dbPrev [] false).map ItemRow.id) i0 = i0 := by
      unfold markTagged
      rw [if_neg hid]
    rw [hmt] at hd ha hf hc1 hc2 hc3
    have hfalse := tagCond_false_of_not_selected hid hi0
    have htrue : tagCond dbPrev [] false i0 = true :=
      (tagCond_nil_false_iff dbPrev i0).mpr
        ⟨hd.symm.trans hc1, ha.symm.trans hc2, by
          rw [← hf, ← hfe]
          exact hc3⟩
    exact absurd (htrue.symm.trans hfalse) (by decide)

theorem iter_items_empty_after {dbPrev dbNew : DB} {now : Nat} (hn : now ≠ 0)
    (hitems : dbNew.items = dbPrev.items.map
      (markExported now ((iter_items dbPrev [] false none true).map ItemRow.id)))
    (hfe : ∀ u, feedExistsB dbNew u = feedExistsB dbPrev u) :
    iter_items dbNew [] false none true = [] := by
  apply iter_items_nil_of_cond
  intro i hi hcond
  rw [hitems] at hi
  obtain ⟨i0, hi0, rfl⟩ := List.mem_map.mp hi
  obtain ⟨hc1, hc2, hc3⟩ := (iterCond_default_iff dbNew _).mp hcond
  by_cases hid : i0.id ∈ (iter_items dbPrev [] false none true).map ItemRow.id
  · have hstamp : (markExported now
        ((iter_items dbPrev [] false none true).map ItemRow.id) i0).fs_exported_ts
        = now := by
      unfold markExported
      rw [if_pos hid]
    exact hn (hstamp.symm.trans hc2)
  · have hmt : markExported now
        ((iter_items dbPrev [] false none true).map ItemRow.id) i0 = i0 := by
      unfold markExported
      rw [if_neg hid]
    rw [hmt] at hc1 hc2 hc3
    have hfalse := iterCond_false_of_not_selected hid hi0
    have htrue : iterCond dbPrev [] false true i0 = true :=
      (iterCond_default_iff dbPrev i0).mpr ⟨hc1, hc2, by
        rw [← hfe]
        exact hc3⟩
    exact absurd (htrue.symm.trans hfalse) (by decide)

theorem tagStage_of_select_nil (h2t : Option String → String)
    (hostOf : String → Option String) (stop : List String) (mt : Nat) (incl : Bool)
    (now : Nat) (db : DB) (h : tagSelect db [] false = []) :
    tagStage h2t hostOf stop mt incl [] false now db = (db, 0) := by
  unfold tagStage
  rw [h]
  rfl

theorem exportStage_of_iter_nil (u : Bool) (now : Nat) (db : DB)
    (h : iter_items db [] u none true = []) :
    exportStage [] u none false now db = (db, 0) := by
  unfold exportStage
  rw [show (!false) = true from rfl, h]
  rfl

theorem parse_groups_arg_none : _parse_groups_arg none = [] := rfl

/-- Shape of one `cmd_sync` run with the default arguments: the upsert, the
fetch stage over the default selection, the guarded tag stage and the guarded
export stage, in order. -/
theorem cmd_sync_defaults_decomp (hash : String → String) (h2t : Option String → String)
    (hostOf : String → Option String) (stop : List String) (cfg : SyncCfg)
    (sources : List SourceEntry) (fetched : String → Option (List Entry))
    (now : Nat) (db : DB) (hne : sources.isEmpty = false) :
    ∃ (U : DB) (F : DB × Nat × List String) (T EX : DB × Nat),
      U = upsert_feeds db sources none ∧
      F = syncFetchStage hash fetched now (selectSyncFeeds U []) U ∧
      T = (if cfg.sync_auto_tags then
            tagStage h2t hostOf stop cfg.max_tags cfg.include_domain [] false now F.1
           else (F.1, 0)) ∧
      EX = (if cfg.sync_write_files then exportStage [] false none false now T.1
            else (T.1, 0)) ∧
      cmd_sync hash h2t hostOf stop cfg syncDefaults sources fetched now db =
        (0, EX.1, ⟨F.2.2, F.2.1, T.2, EX.2⟩) := by
  refine ⟨_, _, _, _, rfl, rfl, rfl, rfl, ?_⟩
  simp only [cmd_sync, syncDefaults, hne, Bool.false_eq_true, if_false,
    parse_groups_arg_none, Bool.true_and, Bool.or_false]

/-- C3, amended: after a default sync run, a second default run over unchanged
upstream payloads inserts 0 rows, auto-tags 0 items and exports 0 items,
provided every fetched entry carries a non-NULL dedup key (some of guid, link,
title is Python-truthy) and the run's timestamp is positive; and the force
flags (`--retag-all` / `--export-all`) select every matching item with no
watermark conjunct at all. -/
theorem c3_watermark_gating (hash : String → String) (h2t : Option String → String)
    (hostOf : String → Option String) (stop : List String) (cfg : SyncCfg)
    (sources : List SourceEntry) (fetched : String → Option (List Entry))
    (now1 now2 : Nat) (db : DB) (hs : sources ≠ []) (hn1 : 0 < now1)
    (huid : ∀ url es e, fetched url = some es → e ∈ es → uid_sync hash e ≠ none) :
    ((cmd_sync hash h2t hostOf stop cfg syncDefaults sources fetched now2
        (cmd_sync hash h2t hostOf stop cfg syncDefaults sources fetched now1
          db).2.1).2.2.inserted = 0 ∧
      (cmd_sync hash h2t hostOf stop cfg syncDefaults sources fetched now2
        (cmd_sync hash h2t hostOf stop cfg syncDefaults sources fetched now1
          db).2.1).2.2.tagged = 0 ∧
      (cmd_sync hash h2t hostOf stop cfg syncDefaults sources fetched now2
        (cmd_sync hash h2t hostOf stop cfg syncDefaults sources fetched now1
          db).2.1).2.2.exported = 0) ∧
    (∀ (g : List String) (now : Nat) (d : DB),
      (tagStage h2t hostOf stop cfg.max_tags cfg.include_domain g true now d).2 =
        (d.items.filter (fun i => !i.deleted &&
          (g.isEmpty ||
            d.feedGroups.any (fun p => p.1 == i.feed_url && decide (p.2 ∈ g))) &&
          feedExistsB d i.feed_url)).length) ∧
    (∀ (g : List String) (u : Bool) (now : Nat) (d : DB),
      (exportStage g u none true now d).2 =
        (d.items.filter (fun i =>
          (g.isEmpty ||
            d.feedGroups.any (fun p => p.1 == i.feed_url && decide (p.2 ∈ g))) &&
          !i.deleted && (!u || !i.read) && feedExistsB d i.feed_url)).length) := by
  have hne : sources.isEmpty = false := by
    cases sources with
    | nil => exact absurd rfl hs
    | cons a t => rfl
  have hn1' : now1 ≠ 0 := Nat.pos_iff_ne_zero.mp hn1
  obtain ⟨U1, F1, T1, EX1, hU1, hF1, hT1, hEX1, hrun1⟩ :=
    cmd_sync_defaults_decomp hash h2t hostOf stop cfg sources fetched now1 db hne
  obtain ⟨U2, F2, T2, EX2, hU2, hF2, hT2, hEX2, hrun2⟩ :=
    cmd_sync_defaults_decomp hash h2t hostOf stop cfg sources fetched now2
      ((cmd_sync hash h2t hostOf stop cfg syncDefaults sources fetched now1 db).2.1)
      hne
  have hdb1 : (cmd_sync hash h2t hostOf stop cfg syncDefaults sources fetched now1
      db).2.1 = EX1.1 := by
    rw [hrun1]
  rw [hdb1] at hU2
  have hF1feeds : F1.1.feeds = U1.feeds := by
    rw [hF1]
    exact syncFetchStage_feeds hash fetched now1 _ _
  have hT1feeds : T1.1.feeds = F1.1.feeds := by
    rw [hT1]
    split
    · exact (tagStage_spec h2t hostOf stop cfg.max_tags cfg.include_domain [] false
        now1 F1.1).2.2
    · rfl
  have hEX1feeds : EX1.1.feeds = T1.1.feeds := by
    rw [hEX1]
    split
    · exact (exportStage_spec [] false none false now1 T1.1).2.2
    · rfl
  have hdb1feeds : EX1.1.feeds = U1.feeds := (hEX1feeds.trans hT1feeds).trans hF1feeds
  have hpres : ∀ e ∈ sources, strTruthy e.url = true →
      (e.url.getD "") ∈ feedUrls EX1.1 := by
    intro e he ht
    have h0 : (e.url.getD "") ∈ feedUrls U1 := by
      rw [hU1]
      exact upsert_feeds_adds_urls sources db e he ht
    have hfu : feedUrls EX1.1 = feedUrls U1 := by
      unfold feedUrls
      rw [hdb1feeds]
    rw [hfu]
    exact h0
  have hU2keys : feedKeys U2 = feedKeys EX1.1 := by
    rw [hU2]
    exact feedKeys_upsert_feeds sources EX1.1 hpres
  have hU2urls : feedUrls U2 = feedUrls EX1.1 := feedUrls_eq_of_feedKeys hU2keys
  have hU2items : U2.items = EX1.1.items := by
    rw [hU2]
    exact upsert_feeds_items none sources EX1.1
  have hEX1keys : feedKeys EX1.1 = feedKeys U1 := by
    unfold feedKeys
    rw [hdb1feeds]
  have hurls : selectSyncFeeds U2 [] = selectSyncFeeds U1 [] :=
    selectSyncFeeds_nil_eq_of_keys (hU2keys.trans hEX1keys)
  have hT1items : dedupSubL F1.1.items T1.1.items := by
    rw [hT1]
    split
    · rw [(tagStage_spec h2t hostOf stop cfg.max_tags cfg.include_domain [] false
        now1 F1.1).2.1]
      exact dedupSubL_map_markTagged now1 _ _
    · exact dedupSubL_refl _
  have hEX1items : dedupSubL T1.1.items EX1.1.items := by
    rw [hEX1]
    split
    · rw [(exportStage_spec [] false none false now1 T1.1).2.1]
      exact dedupSubL_map_markExported now1 _ _
    · exact dedupSubL_refl _
  have hsub : dedupSubL F1.1.items U2.items := by
    rw [hU2items]
    exact dedupSubL_trans hT1items hEX1items
  have hconf2 : ∀ url es e, url ∈ selectSyncFeeds U2 [] → fetched url = some es →
      e ∈ es → itemInsertConflict U2 url e.guid (uid_sync hash e) := by
    intro url es e hmem hfet hee
    have hmem1 : url ∈ selectSyncFeeds U1 [] := by
      rw [← hurls]
      exact hmem
    have hc1 : itemInsertConflict F1.1 url e.guid (uid_sync hash e) := by
      rw [hF1]
      exact syncFetchStage_conflicts hash fetched now1 _ U1 url es e hmem1 hfet hee
        (huid url es e hfet hee)
    exact conflict_of_dedupSubL hsub hc1
  have hF2eq : F2 = (U2, 0, selectSyncFeeds U2 []) := by
    rw [hF2]
    exact syncFetchStage_noop hash fetched now2 _ U2
      (fun url es e hm hf he => hconf2 url es e hm hf he)
  have hfeU2F1 : ∀ u, feedExistsB U2 u = feedExistsB F1.1 u := by
    intro u
    apply feedExistsB_eq_of_urls
    rw [hU2urls]
    unfold feedUrls
    rw [hdb1feeds, ← hF1feeds]
  have hfeU2T1 : ∀ u, feedExistsB U2 u = feedExistsB T1.1 u := by
    intro u
    apply feedExistsB_eq_of_urls
    rw [hU2urls]
    unfold feedUrls
    rw [hdb1feeds, ← hF1feeds, ← hT1feeds]
  have htagsel : cfg.sync_auto_tags = true → tagSelect U2 [] false = [] := by
    intro hA
    have hT1' : T1 = tagStage h2t hostOf stop cfg.max_tags cfg.include_domain []
        false now1 F1.1 := by
      rw [hT1, if_pos hA]
    have hTitems : T1.1.items = F1.1.items.map
        (markTagged now1 ((tagSelect F1.1 [] false).map ItemRow.id)) := by
      rw [hT1']
      exact (tagStage_spec h2t hostOf stop cfg.max_tags cfg.include_domain [] false
        now1 F1.1).2.1
    cases hW : cfg.sync_write_files
    · have hEX1' : EX1 = (T1.1, 0) := by
        rw [hEX1, if_neg (by rw [hW]; exact Bool.false_ne_true)]
      have hEXitems : EX1.1.items = T1.1.items := by
        rw [hEX1']
      refine tagSelect_empty_after hn1' id
        (fun x => ⟨rfl, rfl, rfl⟩) ?_ hfeU2F1
      rw [List.map_id, hU2items, hEXitems, hTitems]
    · have hEX1' : EX1 = exportStage [] false none false now1 T1.1 := by
        rw [hEX1, if_pos hW]
      have hspec := (exportStage_spec [] false none false now1 T1.1).2.1
      rw [show (!false) = true from rfl] at hspec
      have hEXitems : EX1.1.items = T1.1.items.map
          (markExported now1 ((iter_items T1.1 [] false none true).map ItemRow.id)) := by
        rw [hEX1']
        exact hspec
      refine tagSelect_empty_after hn1'
        (markExported now1 ((iter_items T1.1 [] false none true).map ItemRow.id))
        (fun x => ⟨by unfold markExported; split <;> rfl,
          by unfold markExported; split <;> rfl,
          by unfold markExported; split <;> rfl⟩) ?_ hfeU2F1
      rw [hU2items, hEXitems, hTitems]
  have hT2' : T2 = (U2, 0) := by
    rw [hT2]
    have hF21 : F2.1 = U2 := by
      rw [hF2eq]
    rw [hF21]
    cases hA : cfg.sync_auto_tags
    · rw [if_neg Bool.false_ne_true]
    · rw [if_pos rfl]
      exact tagStage_of_select_nil h2t hostOf stop cfg.max_tags cfg.include_domain
        now2 U2 (htagsel hA)
  have hEX2' : EX2.2 = 0 := by
    rw [hEX2]
    have hT21 : T2.1 = U2 := by
      rw [hT2']
    rw [hT21]
    cases hW : cfg.sync_write_files
    · rw [if_neg Bool.false_ne_true]
    · rw [if_pos rfl]
      have hEX1' : EX1 = exportStage [] false none false now1 T1.1 := by
        rw [hEX1, if_pos hW]
      have hspec := (exportStage_spec [] false none false now1 T1.1).2.1
      rw [show (!false) = true from rfl] at hspec
      have hiter : iter_items U2 [] false none true = [] := by
        refine iter_items_empty_after hn1' ?_ hfeU2T1
        rw [hU2items, hEX1']
        exact hspec
      rw [exportStage_of_iter_nil false now2 U2 hiter]
  refine ⟨⟨?_, ?_, ?_⟩, ?_, ?_⟩
  · rw [hrun2]
    show F2.2.1 = 0
    rw [hF2eq]
  · rw [hrun2]
    show T2.2 = 0
    rw [hT2']
  · rw [hrun2]
    show EX2.2 = 0
    exact hEX2'
  · intro g now d
    rw [(tagStage_spec h2t hostOf stop cfg.max_tags cfg.include_domain g true now
      d).1]
    unfold tagSelect
    rw [(List.perm_insertionSort itemOrder _).length_eq]
    congr 1
    apply List.filter_congr
    intro i _
    unfold tagCond
    cases hd : i.deleted <;>
      cases hfx : feedExistsB d i.feed_url <;>
        cases hgrp : (g.isEmpty ||
          d.feedGroups.any (fun p => p.1 == i.feed_url && decide (p.2 ∈ g))) <;>
          rfl
  · intro g u now d
    rw [(exportStage_spec g u none true now d).1]
    rw [show (!true) = false from rfl]
    unfold iter_items
    show (List.insertionSort itemOrder
      (d.items.filter (iterCond d g u false))).length = _
    rw [(List.perm_insertionSort itemOrder _).length_eq]
    congr 1
    apply List.filter_congr
    intro i _
    unfold iterCond
    cases hd : i.deleted <;>
      cases hu : u <;>
        cases hr : i.read <;>
          cases hfx : feedExistsB d i.feed_url <;>
            cases hgrp : (g.isEmpty ||
              d.feedGroups.any (fun p => p.1 == i.feed_url && decide (p.2 ∈ g))) <;>
              rfl

/-- C3 as stated is false: an entry whose guid, link and title are all absent
gets a NULL `uid` (the sync dedup key), SQLite UNIQUE never fires on NULLs,
and a second default sync run over the identical payload re-inserts the row:
its `inserted` count is 1, not 0. -/
theorem c3_counterexample_null_uid_sync :
    uid_sync (fun _ => "H") ⟨none, none, none, none, none, 3⟩ = none ∧
    (cmd_sync (fun _ => "H") (fun _ => "") (fun _ => none) []
        ⟨false, false, false, 5⟩ syncDefaults [⟨some "u", none, [], none⟩]
        (fun _ => some [⟨none, none, none, none, none, 3⟩]) 5
        emptyDB).2.2.inserted = 1 ∧
    (cmd_sync (fun _ => "H") (fun _ => "") (fun _ => none) []
        ⟨false, false, false, 5⟩ syncDefaults [⟨some "u", none, [], none⟩]
        (fun _ => some [⟨none, none, none, none, none, 3⟩]) 5
        (cmd_sync (fun _ => "H") (fun _ => "") (fun _ => none) []
          ⟨false, false, false, 5⟩ syncDefaults [⟨some "u", none, [], none⟩]
          (fun _ => some [⟨none, none, none, none, none, 3⟩]) 5
          emptyDB).2.1).2.2.inserted = 1 :=
  ⟨rfl, rfl, rfl⟩

/-- Witness for C3 on a concrete one-feed store whose single entry has a
truthy guid: the second default sync run reports 0 inserted, 0 tagged and 0
exported. -/
theorem c3_watermark_gating_witness :
    (cmd_sync (fun _ => "H") (fun _ => "") (fun _ => none) []
        ⟨true, true, false, 5⟩ syncDefaults [⟨some "u", none, [], none⟩]
        (fun _ => some [⟨some "g", none, none, none, none, 3⟩]) 9
        (cmd_sync (fun _ => "H") (fun _ => "") (fun _ => none) []
          ⟨true, true, false, 5⟩ syncDefaults [⟨some "u", none, [], none⟩]
          (fun _ => some [⟨some "g", none, none, none, none, 3⟩]) 5
          emptyDB).2.1).2.2.inserted = 0 ∧
    (cmd_sync (fun _ => "H") (fun _ => "") (fun _ => none) []
        ⟨true, true, false, 5⟩ syncDefaults [⟨some "u", none, [], none⟩]
        (fun _ => some [⟨some "g", none, none, none, none, 3⟩]) 9
        (cmd_sync (fun _ => "H") (fun _ => "") (fun _ => none) []
          ⟨true, true, false, 5⟩ syncDefaults [⟨some "u", none, [], none⟩]
          (fun _ => some [⟨some "g", none, none, none, none, 3⟩]) 5
          emptyDB).2.1).2.2.tagged = 0 ∧
    (cmd_sync (fun _ => "H") (fun _ => "") (fun _ => none) []
        ⟨true, true, false, 5⟩ syncDefaults [⟨some "u", none, [], none⟩]
        (fun _ => some [⟨some "g", none, none, none, none, 3⟩]) 9
        (cmd_sync (fun _ => "H") (fun _ => "") (fun _ => none) []
          ⟨true, true, false, 5⟩ syncDefaults [⟨some "u", none, [], none⟩]
          (fun _ => some [⟨some "g", none, none, none, none, 3⟩]) 5
          emptyDB).2.1).2.2.exported = 0 :=
  (c3_watermark_gating (fun _ => "H") (fun _ => "") (fun _ => none) []
    ⟨true, true, false, 5⟩ [⟨some "u", none, [], none⟩]
    (fun _ => some [⟨some "g", none, none, none, none, 3⟩]) 5 9 emptyDB
    (by decide) (by decide)
    (fun url es e h he => by
      have hes : es = [⟨some "g", none, none, none, none, 3⟩] :=
        (Option.some.inj h).symm
      subst hes
      have he' : e = ⟨some "g", none, none, none, none, 3⟩ :=
        List.mem_singleton.mp he
      subst he'
      decide)).1

/-! ### The duplicate-URL pre-flight (C5) -/

/-- C5 as stated is false for the sync orchestrator: `cmd_sync` performs no
duplicate-URL validation. With the same feed URL listed twice the sync run
proceeds — exit code 0, the feed fetched and its item inserted — while
`cmd_fetch` on the very same source list aborts with exit code 1 and an
unchanged store. -/
theorem c5_counterexample_sync_no_dup_check :
    hasDupUrls [⟨some "u", none, [], none⟩, ⟨some "u", none, [], none⟩] = true ∧
    (cmd_sync (fun _ => "H") (fun _ => "") (fun _ => none) []
        ⟨false, false, false, 5⟩ syncDefaults
        [⟨some "u", none, [], none⟩, ⟨some "u", none, [], none⟩]
        (fun _ => some [⟨some "g", none, none, none, none, 3⟩]) 5 emptyDB).1 = 0 ∧
    (cmd_sync (fun _ => "H") (fun _ => "") (fun _ => none) []
        ⟨false, false, false, 5⟩ syncDefaults
        [⟨some "u", none, [], none⟩, ⟨some "u", none, [], none⟩]
        (fun _ => some [⟨some "g", none, none, none, none, 3⟩]) 5 emptyDB).2.2 =
      ⟨["u"], 1, 0, 0⟩ ∧
    (cmd_fetch (fun _ => "H") ⟨none⟩
        [⟨some "u", none, [], none⟩, ⟨some "u", none, [], none⟩]
        (fun _ => some [⟨some "g", none, none, none, none, 3⟩]) 5 emptyDB).1 = 1 ∧
    (cmd_fetch (fun _ => "H") ⟨none⟩
        [⟨some "u", none, [], none⟩, ⟨some "u", none, [], none⟩]
        (fun _ => some [⟨some "g", none, none, none, none, 3⟩]) 5 emptyDB).2.1 =
      emptyDB :=
  ⟨rfl, rfl, rfl, rfl, rfl⟩

/-- C5, amended: the duplicate-URL pre-flight exists only in `cmd_fetch`. A
duplicated truthy source URL makes `cmd_fetch` return exit code 1 with the
store untouched, no URL attempted and 0 rows inserted, before any network
activity; with no duplicates and a nonempty source list it proceeds (exit
code 0). `cmd_sync` runs no such check: every nonempty source list proceeds
(exit code 0), duplicated or not. -/
theorem c5_duplicate_preflight (hash : String → String) (h2t : Option String → String)
    (hostOf : String → Option String) (stop : List String) (cfg : SyncCfg)
    (fargs : FetchArgs) (sargs : SyncArgs) (sources : List SourceEntry)
    (fetched : String → Option (List Entry)) (now : Nat) (db : DB) :
    (hasDupUrls sources = true →
      cmd_fetch hash fargs sources fetched now db = (1, db, [], 0)) ∧
    (sources ≠ [] → hasDupUrls sources = false →
      (cmd_fetch hash fargs sources fetched now db).1 = 0) ∧
    (sources ≠ [] →
      (cmd_sync hash h2t hostOf stop cfg sargs sources fetched now db).1 = 0) := by
  refine ⟨?_, ?_, ?_⟩
  · intro hdup
    unfold cmd_fetch
    by_cases he : sources.isEmpty = true
    · rw [if_pos he]
    · rw [if_neg he, if_pos hdup]
  · intro hne hdup
    have hne' : sources.isEmpty = false := by
      cases sources with
      | nil => exact absurd rfl hne
      | cons a t => rfl
    unfold cmd_fetch
    rw [if_neg (by rw [hne']; exact Bool.false_ne_true),
      if_neg (by rw [hdup]; exact Bool.false_ne_true)]
  · intro hne
    have hne' : sources.isEmpty = false := by
      cases sources with
      | nil => exact absurd rfl hne
      | cons a t => rfl
    unfold cmd_sync
    rw [if_neg (by rw [hne']; exact Bool.false_ne_true)]

/-- Witness for C5: a concrete duplicated list aborts the fetch, and concrete
duplicate-free lists proceed through both commands. -/
theorem c5_duplicate_preflight_witness :
    cmd_fetch (fun _ => "H") ⟨none⟩
        [⟨some "v", none, [], none⟩, ⟨some "v", none, [], none⟩]
        (fun _ => none) 5 emptyDB = (1, emptyDB, [], 0) ∧
    (cmd_fetch (fun _ => "H") ⟨none⟩ [⟨some "w", none, [], none⟩]
        (fun _ => none) 5 emptyDB).1 = 0 ∧
    (cmd_sync (fun _ => "H") (fun _ => "") (fun _ => none) []
        ⟨false, false, false, 5⟩ syncDefaults [⟨some "w", none, [], none⟩]
        (fun _ => none) 5 emptyDB).1 = 0 :=
  ⟨(c5_duplicate_preflight (fun _ => "H") (fun _ => "") (fun _ => none) []
      ⟨false, false, false, 5⟩ ⟨none⟩ syncDefaults
      [⟨some "v", none, [], none⟩, ⟨some "v", none, [], none⟩]
      (fun _ => none) 5 emptyDB).1 (by decide),
   (c5_duplicate_preflight (fun _ => "H") (fun _ => "") (fun _ => none) []
      ⟨false, false, false, 5⟩ ⟨none⟩ syncDefaults
      [⟨some "w", none, [], none⟩] (fun _ => none) 5 emptyDB).2.1
      (by decide) (by decide),
   (c5_duplicate_preflight (fun _ => "H") (fun _ => "") (fun _ => none) []
      ⟨false, false, false, 5⟩ ⟨none⟩ syncDefaults
      [⟨some "w", none, [], none⟩] (fun _ => none) 5 emptyDB).2.2 (by decide)⟩

end Rssel
